import Mathlib

/-!
Verification of the Architecture-Diagram-Generator core pipeline.

Shallow embedding of `app/dsl_render_validation.py`, `app/dsl_to_drawio.py`
and the pydantic models of `app/dsl.py`.  Python strings are modelled as
`List Char`; Python dicts keyed by strings are modelled as association lists
with Python's insertion-order / overwrite semantics; Python `sorted` is
modelled by a structurally recursive stable sort.  Geometry is integral throughout the
source (all layout constants are integers), so coordinates are modelled as
`Nat`/`Int`.
-/

set_option maxRecDepth 20000

/-! ### Decimal rendering of naturals (Python `f"{n}"` on a non-negative int) -/

def digitCh (n : Nat) : Char := Char.ofNat (48 + n)

def digitVal (c : Char) : Nat := c.toNat - 48

def natToStrAux (fuel n : Nat) : List Char :=
  match fuel with
  | 0 => []
  | fuel + 1 =>
    if n < 10 then [digitCh n] else natToStrAux fuel (n / 10) ++ [digitCh (n % 10)]

def natToStr (n : Nat) : List Char := natToStrAux (n + 1) n

def strToNat (l : List Char) : Nat := l.foldl (fun a c => a * 10 + digitVal c) 0

theorem digitVal_digitCh {n : Nat} (h : n < 10) : digitVal (digitCh n) = n := by
  interval_cases n <;> decide

theorem strToNatAux_snoc (a : Nat) (l : List Char) (c : Char) :
    List.foldl (fun a c => a * 10 + digitVal c) a (l ++ [c]) =
      (List.foldl (fun a c => a * 10 + digitVal c) a l) * 10 + digitVal c := by
  simp [List.foldl_append]

theorem strToNat_natToStrAux : ∀ (fuel n : Nat), n < fuel →
    strToNat (natToStrAux fuel n) = n := by
  intro fuel
  induction fuel with
  | zero => intro n h; omega
  | succ fuel ih =>
    intro n h
    by_cases h10 : n < 10
    · simp [natToStrAux, h10, strToNat, digitVal_digitCh h10]
    · have hdiv : n / 10 < fuel := by
        have h1 : n / 10 < n := Nat.div_lt_self (by omega) (by omega)
        omega
      have hmod : n % 10 < 10 := Nat.mod_lt _ (by omega)
      simp only [natToStrAux, h10, if_false]
      rw [strToNat, strToNatAux_snoc]
      rw [show List.foldl (fun a c => a * 10 + digitVal c) 0 (natToStrAux fuel (n / 10)) =
          strToNat (natToStrAux fuel (n / 10)) from rfl]
      rw [ih (n / 10) hdiv, digitVal_digitCh hmod]
      omega

theorem strToNat_natToStr (n : Nat) : strToNat (natToStr n) = n :=
  strToNat_natToStrAux (n + 1) n (Nat.lt_succ_self n)

theorem natToStr_injective : Function.Injective natToStr := by
  intro a b h
  have := strToNat_natToStr a
  rw [h, strToNat_natToStr] at this
  omega

theorem digitCh_bounds {n : Nat} (h : n < 10) :
    48 ≤ (digitCh n).toNat ∧ (digitCh n).toNat ≤ 57 := by
  interval_cases n <;> decide

theorem natToStrAux_all_bounds : ∀ (fuel n : Nat), ∀ c ∈ natToStrAux fuel n,
    48 ≤ c.toNat ∧ c.toNat ≤ 57 := by
  intro fuel
  induction fuel with
  | zero => intro n c hc; simp [natToStrAux] at hc
  | succ fuel ih =>
    intro n c hc
    by_cases h10 : n < 10
    · simp [natToStrAux, h10] at hc
      subst hc; exact digitCh_bounds h10
    · simp only [natToStrAux, h10, if_false, List.mem_append, List.mem_singleton] at hc
      rcases hc with hc | hc
      · exact ih _ _ hc
      · subst hc; exact digitCh_bounds (Nat.mod_lt _ (by omega))

theorem natToStr_all_bounds (n : Nat) : ∀ c ∈ natToStr n, 48 ≤ c.toNat ∧ c.toNat ≤ 57 :=
  natToStrAux_all_bounds (n + 1) n

theorem natToStr_ne_nil (n : Nat) : natToStr n ≠ [] := by
  unfold natToStr natToStrAux
  by_cases h10 : n < 10 <;> simp [h10]

/-! ### Python dict (string-keyed) as an ordered association list.

`dictInsert` models `d[k] = v`: updating an existing key keeps its position,
a fresh key is appended at the end (CPython's insertion-order semantics). -/

def dictInsert (m : List (List Char × α)) (k : List Char) (v : α) :
    List (List Char × α) :=
  if m.any (fun p => p.1 = k) then
    m.map (fun p => if p.1 = k then (k, v) else p)
  else
    m ++ [(k, v)]

def dictLookup (m : List (List Char × α)) (k : List Char) : Option α :=
  (m.find? (fun p => p.1 = k)).map Prod.snd

def dictKeys (m : List (List Char × α)) : List (List Char) := m.map Prod.fst

/-- Build `{x[key]: x for x in l}` (later duplicates overwrite, order of first
insertion is kept). -/
def buildDict (key : α → List Char) (l : List α) : List (List Char × α) :=
  l.foldl (fun m x => dictInsert m (key x) x) []

theorem dictKeys_insert_of_mem {m : List (List Char × α)} {k : List Char} {v : α}
    (h : m.any (fun p => p.1 = k) = true) : dictKeys (dictInsert m k v) = dictKeys m := by
  simp only [dictInsert, h, if_true, dictKeys, List.map_map]
  apply List.map_congr_left
  intro p _
  by_cases hp : p.1 = k <;> simp [hp]

theorem dictKeys_insert_of_not_mem {m : List (List Char × α)} {k : List Char} {v : α}
    (h : ¬ m.any (fun p => p.1 = k) = true) :
    dictKeys (dictInsert m k v) = dictKeys m ++ [k] := by
  simp [dictInsert, h, dictKeys]

theorem mem_dictKeys_insert {m : List (List Char × α)} {k k' : List Char} {v : α}
    (h : k' ∈ dictKeys m) : k' ∈ dictKeys (dictInsert m k v) := by
  by_cases hm : m.any (fun p => p.1 = k) = true
  · rw [dictKeys_insert_of_mem hm]; exact h
  · rw [dictKeys_insert_of_not_mem hm]; exact List.mem_append_left _ h

theorem mem_dictKeys_insert_self (m : List (List Char × α)) (k : List Char) (v : α) :
    k ∈ dictKeys (dictInsert m k v) := by
  by_cases hm : m.any (fun p => p.1 = k) = true
  · rw [dictKeys_insert_of_mem hm]
    simp only [List.any_eq_true, decide_eq_true_eq] at hm
    obtain ⟨p, hp, hpk⟩ := hm
    exact hpk ▸ List.mem_map_of_mem Prod.fst hp
  · rw [dictKeys_insert_of_not_mem hm]
    exact List.mem_append_right _ (List.mem_singleton.mpr rfl)

/-! ### Character classes and Python string helpers used by `_normalize_zone_id` -/

/-- The character class `[a-z0-9]` of the normalization regex. -/
def isLowerAlnum (c : Char) : Bool :=
  (97 ≤ c.toNat && c.toNat ≤ 122) || (48 ≤ c.toNat && c.toNat ≤ 57)

/-- Python `str.lower()` (ASCII part, which is all the pipeline depends on). -/
def lowerChar (c : Char) : Char :=
  if 65 ≤ c.toNat && c.toNat ≤ 90 then Char.ofNat (c.toNat + 32) else c

/-- Whitespace stripped by Python `str.strip()` (ASCII part). -/
def isPyWS (c : Char) : Bool :=
  c.toNat = 32 || c.toNat = 9 || c.toNat = 10 || c.toNat = 13 || c.toNat = 11 || c.toNat = 12

def isUnd (c : Char) : Bool := c == '_'

/-- Strip matching characters from the end (second half of Python `strip`). -/
def stripEnd (p : Char → Bool) (l : List Char) : List Char :=
  (l.reverse.dropWhile p).reverse

/-- Python `s.strip(...)`: drop matching characters from both ends. -/
def pyStrip (p : Char → Bool) (l : List Char) : List Char :=
  stripEnd p (l.dropWhile p)

/-- State machine for `re.sub(r"(bad)+", rep, s)`: every maximal run of
characters satisfying `bad` is replaced by the single character `rep`.
The boolean state records whether we are inside a run. -/
def subRunsAux (bad : Char → Bool) (rep : Char) : Bool → List Char → List Char
  | _, [] => []
  | inRun, c :: t =>
    if bad c then
      if inRun then subRunsAux bad rep true t else rep :: subRunsAux bad rep true t
    else c :: subRunsAux bad rep false t

def subRuns (bad : Char → Bool) (rep : Char) (l : List Char) : List Char :=
  subRunsAux bad rep false l

/-! ### `_normalize_zone_id` / `_canonical_zone_id` / `ZONE_ALIASES`
(`app/dsl_render_validation.py`, lines 21-51) -/

/-- `_normalize_zone_id`: lowercase, replace runs of non-alphanumerics with a
single underscore, collapse underscore runs, strip underscores, default. -/
def normalize_zone_id (raw : List Char) : List Char :=
  let s1 := (pyStrip isPyWS raw).map lowerChar
  let s2 := subRuns (fun c => ! isLowerAlnum c) '_' s1
  let s3 := subRuns isUnd '_' s2
  let s4 := pyStrip isUnd s3
  if s4 = [] then (r"zone").data else s4

def ZONE_ALIASES : List (List Char × List Char) :=
  [ ((r"dmz_zone").data, (r"dmz").data)
  , ((r"dmz").data, (r"dmz").data)
  , ((r"internet").data, (r"internet").data)
  , ((r"external").data, (r"internet").data)
  , ((r"perimeter").data, (r"dmz").data)
  , ((r"internal").data, (r"internal").data)
  , ((r"on_prem").data, (r"on_prem").data)
  , ((r"on-prem").data, (r"on_prem").data)
  , ((r"onprem").data, (r"on_prem").data)
  , ((r"cloud").data, (r"cloud").data)
  , ((r"tenant").data, (r"tenant").data)
  , ((r"data").data, (r"data").data)
  , ((r"data_layer").data, (r"data").data)
  , ((r"identity").data, (r"identity").data)
  , ((r"vendor").data, (r"vendor").data) ]

/-- `_canonical_zone_id`: map alias to canonical zone id if known, else
normalized. -/
def canonical_zone_id (raw : List Char) : List Char :=
  let normalized := normalize_zone_id raw
  (dictLookup ZONE_ALIASES normalized).getD normalized

/-! ### Normal form of normalized zone ids -/

/-- `headNotBad bad l`: the first character of `l` (if any) is not `bad`. -/
def headNotBad (bad : Char → Bool) : List Char → Bool
  | [] => true
  | c :: _ => ! bad c

/-- No two consecutive characters of the list satisfy `bad`. -/
def noTwoBad (bad : Char → Bool) : List Char → Bool
  | a :: b :: t => (!(bad a && bad b)) && noTwoBad bad (b :: t)
  | _ => true

def okChar (c : Char) : Bool := isLowerAlnum c || isUnd c

/-- Normal form: what `_normalize_zone_id` always produces, and what it leaves
unchanged. -/
def NF (l : List Char) : Bool :=
  (! l.isEmpty) && l.all okChar && noTwoBad isUnd l &&
    headNotBad isUnd l && headNotBad isUnd l.reverse

theorem noTwoBad_cons {bad : Char → Bool} {a : Char} {l : List Char}
    (h : noTwoBad bad (a :: l)) : noTwoBad bad l := by
  match l with
  | [] => rfl
  | b :: t => exact (Bool.and_elim_right h)

theorem noTwoBad_append_left {bad : Char → Bool} :
    ∀ {l r : List Char}, noTwoBad bad (l ++ r) → noTwoBad bad l := by
  intro l
  induction l with
  | nil => intro r _; rfl
  | cons a t ih =>
    intro r h
    match t with
    | [] => rfl
    | b :: t' =>
      simp only [List.cons_append, noTwoBad, Bool.and_eq_true] at h ⊢
      exact ⟨h.1, ih (r := r) h.2⟩

theorem noTwoBad_dropWhile {bad p : Char → Bool} :
    ∀ {l : List Char}, noTwoBad bad l → noTwoBad bad (l.dropWhile p) := by
  intro l
  induction l with
  | nil => intro _; rfl
  | cons a t ih =>
    intro h
    rw [List.dropWhile_cons]
    by_cases hp : p a = true
    · simp only [hp, if_true]
      exact ih (noTwoBad_cons h)
    · simp only [hp, if_false]
      exact h

theorem noTwoBad_of_imp {bad1 bad2 : Char → Bool} :
    ∀ {l : List Char}, (∀ c ∈ l, bad1 c = true → bad2 c = true) →
      noTwoBad bad2 l → noTwoBad bad1 l := by
  intro l
  induction l with
  | nil => intro _ _; rfl
  | cons a t ih =>
    intro himp h
    match t with
    | [] => rfl
    | b :: t' =>
      simp only [noTwoBad, Bool.and_eq_true] at h ⊢
      constructor
      · simp only [Bool.not_eq_true', Bool.and_eq_false_iff]
        by_cases h1 : bad1 a = true
        · by_cases h2 : bad1 b = true
          · exfalso
            have ha := himp a (by simp) h1
            have hb := himp b (by simp) h2
            have := h.1
            simp [ha, hb] at this
          · right; simpa using h2
        · left; simpa using h1
      · exact ih (fun c hc => himp c (List.mem_cons_of_mem _ hc)) h.2

theorem headNotBad_subRunsAux_true {bad : Char → Bool} {rep : Char} :
    ∀ {l : List Char}, headNotBad bad (subRunsAux bad rep true l) = true := by
  intro l
  induction l with
  | nil => rfl
  | cons c t ih =>
    by_cases hc : bad c = true
    · simpa [subRunsAux, hc] using ih
    · simp [subRunsAux, hc, headNotBad]

theorem noTwoBad_subRunsAux {bad : Char → Bool} {rep : Char} :
    ∀ (l : List Char) (st : Bool), noTwoBad bad (subRunsAux bad rep st l) = true := by
  intro l
  induction l with
  | nil => intro st; rfl
  | cons c t ih =>
    intro st
    by_cases hc : bad c = true
    · cases st with
      | true => simpa [subRunsAux, hc] using ih true
      | false =>
        simp only [subRunsAux, hc, if_true, Bool.false_eq_true, if_false]
        have hhead := @headNotBad_subRunsAux_true bad rep t
        have htail := ih true
        match hm : subRunsAux bad rep true t with
        | [] => rfl
        | b :: t' =>
          rw [hm] at hhead htail
          simp only [noTwoBad, Bool.and_eq_true]
          refine ⟨?_, htail⟩
          simp only [headNotBad, Bool.not_eq_true'] at hhead
          simp [hhead]
    · simp only [subRunsAux, hc, if_false]
      have htail := ih false
      match hm : subRunsAux bad rep false t with
      | [] => rfl
      | b :: t' =>
        rw [hm] at htail
        simp only [noTwoBad, Bool.and_eq_true]
        refine ⟨?_, htail⟩
        simp [hc]

theorem mem_subRunsAux {bad : Char → Bool} {rep : Char} :
    ∀ {l : List Char} {st : Bool} {c : Char}, c ∈ subRunsAux bad rep st l →
      c = rep ∨ (bad c = false ∧ c ∈ l) := by
  intro l
  induction l with
  | nil => intro st c hc; simp [subRunsAux] at hc
  | cons a t ih =>
    intro st c hc
    by_cases ha : bad a = true
    · cases st with
      | true =>
        simp only [subRunsAux, ha, if_true] at hc
        rcases ih hc with h | ⟨h1, h2⟩
        · exact Or.inl h
        · exact Or.inr ⟨h1, List.mem_cons_of_mem _ h2⟩
      | false =>
        simp only [subRunsAux, ha, if_true, Bool.false_eq_true, if_false,
          List.mem_cons] at hc
        rcases hc with h | h
        · exact Or.inl h
        · rcases ih h with h | ⟨h1, h2⟩
          · exact Or.inl h
          · exact Or.inr ⟨h1, List.mem_cons_of_mem _ h2⟩
    · rw [Bool.not_eq_true] at ha
      simp only [subRunsAux, ha, Bool.false_eq_true, if_false, List.mem_cons] at hc
      rcases hc with h | h
      · subst h
        exact Or.inr ⟨ha, List.mem_cons_self _ _⟩
      · rcases ih h with h | ⟨h1, h2⟩
        · exact Or.inl h
        · exact Or.inr ⟨h1, List.mem_cons_of_mem _ h2⟩

/-- The run-replacement machine is the identity on lists in which every `bad`
character already equals `rep` and no two consecutive characters are `bad`. -/
theorem subRunsAux_eq_self {bad : Char → Bool} {rep : Char} :
    ∀ {l : List Char}, (∀ c ∈ l, bad c = true → c = rep) → noTwoBad bad l = true →
      subRunsAux bad rep false l = l ∧
        (headNotBad bad l = true → subRunsAux bad rep true l = l) := by
  intro l
  induction l with
  | nil => intro _ _; exact ⟨rfl, fun _ => rfl⟩
  | cons c t ih =>
    intro heq hnt
    have htaileq : ∀ d ∈ t, bad d = true → d = rep :=
      fun d hd => heq d (List.mem_cons_of_mem _ hd)
    have hihp := ih htaileq (noTwoBad_cons hnt)
    constructor
    · by_cases hc : bad c = true
      · have hcrep : c = rep := heq c (List.mem_cons_self _ _) hc
        have hheadt : headNotBad bad t = true := by
          match t with
          | [] => rfl
          | b :: t' =>
            simp only [noTwoBad, Bool.and_eq_true] at hnt
            have h1 := hnt.1
            simp only [headNotBad]
            by_cases hb : bad b = true
            · exfalso; rw [hc, hb] at h1; simp at h1
            · simp [hb]
        have hstep : subRunsAux bad rep false (c :: t) = rep :: subRunsAux bad rep true t := by
          simp [subRunsAux, hc]
        rw [hstep, hihp.2 hheadt, ← hcrep]
      · simp [subRunsAux, hc, hihp.1]
    · intro hhead
      by_cases hc : bad c = true
      · simp only [headNotBad, hc] at hhead
        cases hhead
      · simp [subRunsAux, hc, hihp.1]

theorem subRuns_eq_self {bad : Char → Bool} {rep : Char} {l : List Char}
    (heq : ∀ c ∈ l, bad c = true → c = rep) (hnt : noTwoBad bad l = true) :
    subRuns bad rep l = l :=
  (subRunsAux_eq_self heq hnt).1

/-! ### pyStrip lemmas -/

theorem dropWhile_eq_self_of_headNot {p : Char → Bool} {l : List Char}
    (h : headNotBad p l = true) : l.dropWhile p = l := by
  match l with
  | [] => rfl
  | c :: t =>
    simp only [headNotBad, Bool.not_eq_true'] at h
    simp [List.dropWhile_cons, h]

theorem headNotBad_dropWhile (p : Char → Bool) :
    ∀ (l : List Char), headNotBad p (l.dropWhile p) = true := by
  intro l
  induction l with
  | nil => rfl
  | cons c t ih =>
    by_cases hc : p c = true
    · simpa [List.dropWhile_cons, hc] using ih
    · simp [List.dropWhile_cons, hc, headNotBad]

theorem pyStrip_eq_self {p : Char → Bool} {l : List Char}
    (hh : headNotBad p l = true) (ht : headNotBad p l.reverse = true) :
    pyStrip p l = l := by
  unfold pyStrip stripEnd
  rw [dropWhile_eq_self_of_headNot hh, dropWhile_eq_self_of_headNot ht,
    List.reverse_reverse]

theorem pyStrip_eq_self_of_all {p : Char → Bool} {l : List Char}
    (h : ∀ c ∈ l, p c = false) : pyStrip p l = l := by
  apply pyStrip_eq_self
  · match l with
    | [] => rfl
    | c :: t =>
      simp only [headNotBad, Bool.not_eq_true']
      exact h c (List.mem_cons_self _ _)
  · match hm : l.reverse with
    | [] => rfl
    | c :: t =>
      simp only [headNotBad, Bool.not_eq_true']
      have : c ∈ l.reverse := by rw [hm]; exact List.mem_cons_self _ _
      exact h c (List.mem_reverse.mp this)

/-- `pyStrip` yields an infix of its input: there are `u v` with `l = u ++ res ++ v`. -/
theorem pyStrip_isInfix (p : Char → Bool) (l : List Char) :
    pyStrip p l <:+: l := by
  unfold pyStrip stripEnd
  have h1 : l.dropWhile p <:+ l := List.dropWhile_suffix p
  have h2 : (l.dropWhile p).reverse.dropWhile p <:+ (l.dropWhile p).reverse :=
    List.dropWhile_suffix p
  have h3 : ((l.dropWhile p).reverse.dropWhile p).reverse <+: l.dropWhile p := by
    simpa using h2.reverse
  exact h3.isInfix.trans h1.isInfix

theorem pyStrip_prefix (p : Char → Bool) (l : List Char) :
    pyStrip p l <+: l.dropWhile p := by
  unfold pyStrip stripEnd
  simpa using (List.dropWhile_suffix (l := (l.dropWhile p).reverse) p).reverse

/-! ### Normal-form facts about `_normalize_zone_id` and `_canonical_zone_id` -/

theorem okChar_val {c : Char} (h : okChar c = true) :
    (97 ≤ c.toNat ∧ c.toNat ≤ 122) ∨ (48 ≤ c.toNat ∧ c.toNat ≤ 57) ∨ c.toNat = 95 := by
  simp only [okChar, isLowerAlnum, isUnd, Bool.or_eq_true, Bool.and_eq_true,
    decide_eq_true_eq, beq_iff_eq] at h
  rcases h with (⟨h1, h2⟩ | ⟨h1, h2⟩) | h
  · exact Or.inl ⟨h1, h2⟩
  · exact Or.inr (Or.inl ⟨h1, h2⟩)
  · subst h; exact Or.inr (Or.inr rfl)

theorem okChar_not_ws {c : Char} (h : okChar c = true) : isPyWS c = false := by
  have hv := okChar_val h
  simp only [isPyWS, Bool.or_eq_false_iff, decide_eq_false_iff_not]
  omega

theorem okChar_lowerChar {c : Char} (h : okChar c = true) : lowerChar c = c := by
  have hv := okChar_val h
  have hcond : ¬ ((65 ≤ c.toNat && c.toNat ≤ 90) = true) := by
    simp only [Bool.and_eq_true, decide_eq_true_eq]
    omega
  simp [lowerChar, hcond]

theorem bad_imp_und {c : Char} (h : okChar c = true)
    (hb : (! isLowerAlnum c) = true) : c = '_' := by
  simp only [okChar, Bool.or_eq_true] at h
  rcases h with h | h
  · rw [Bool.not_eq_true'] at hb; rw [h] at hb; cases hb
  · simpa [isUnd, beq_iff_eq] using h

theorem NF_parts {l : List Char} (h : NF l = true) :
    l ≠ [] ∧ (∀ c ∈ l, okChar c = true) ∧ noTwoBad isUnd l = true ∧
      headNotBad isUnd l = true ∧ headNotBad isUnd l.reverse = true := by
  simp only [NF, Bool.and_eq_true] at h
  obtain ⟨⟨⟨⟨h1, h2⟩, h3⟩, h4⟩, h5⟩ := h
  refine ⟨?_, fun c hc => List.all_eq_true.mp h2 c hc, h3, h4, h5⟩
  intro hl
  subst hl
  simp at h1

theorem normalize_of_NF {l : List Char} (h : NF l = true) : normalize_zone_id l = l := by
  obtain ⟨hne, hall, hnd, hh, hl⟩ := NF_parts h
  simp only [normalize_zone_id]
  rw [pyStrip_eq_self_of_all (fun c hc => okChar_not_ws (hall c hc))]
  rw [List.map_congr_left (fun c hc => okChar_lowerChar (hall c hc)), List.map_id']
  rw [subRuns_eq_self (fun c hc hb => bad_imp_und (hall c hc) hb)
      (noTwoBad_of_imp (fun c hc hb => by rw [bad_imp_und (hall c hc) hb]; rfl) hnd)]
  rw [subRuns_eq_self (fun c _ hb => by simpa [isUnd, beq_iff_eq] using hb) hnd]
  rw [pyStrip_eq_self hh hl]
  simp [hne]

theorem headNotBad_of_prefix {p : Char → Bool} {s t : List Char}
    (hpre : s <+: t) (h : headNotBad p t = true) : headNotBad p s = true := by
  match s with
  | [] => rfl
  | c :: s' =>
    obtain ⟨r, hr⟩ := hpre
    rw [← hr] at h
    exact h

theorem NF_normalize (l : List Char) : NF (normalize_zone_id l) = true := by
  simp only [normalize_zone_id]
  by_cases hempty :
      pyStrip isUnd (subRuns isUnd '_'
        (subRuns (fun c => ! isLowerAlnum c) '_' ((pyStrip isPyWS l).map lowerChar))) = []
  · simp only [hempty, if_true]
    decide
  · simp only [hempty, if_false]
    have hallS2 : ∀ c ∈ subRuns (fun c => ! isLowerAlnum c) '_'
        ((pyStrip isPyWS l).map lowerChar), okChar c = true := by
      intro c hc
      rcases mem_subRunsAux hc with h | ⟨h1, _⟩
      · subst h; decide
      · have halnum : isLowerAlnum c = true := by
          revert h1; cases isLowerAlnum c <;> simp
        simp [okChar, halnum]
    have hallS3 : ∀ c ∈ subRuns isUnd '_'
        (subRuns (fun c => ! isLowerAlnum c) '_' ((pyStrip isPyWS l).map lowerChar)),
        okChar c = true := by
      intro c hc
      rcases mem_subRunsAux hc with h | ⟨_, h2⟩
      · subst h; decide
      · exact hallS2 c h2
    have hndS3 : noTwoBad isUnd (subRuns isUnd '_'
        (subRuns (fun c => ! isLowerAlnum c) '_' ((pyStrip isPyWS l).map lowerChar))) = true :=
      noTwoBad_subRunsAux _ _
    simp only [NF, Bool.and_eq_true]
    refine ⟨⟨⟨⟨?_, ?_⟩, ?_⟩, ?_⟩, ?_⟩
    · cases hm : pyStrip isUnd (subRuns isUnd '_' (subRuns (fun c => ! isLowerAlnum c) '_'
        ((pyStrip isPyWS l).map lowerChar))) with
      | nil => exact absurd hm hempty
      | cons a t => simp
    · rw [List.all_eq_true]
      intro c hc
      exact hallS3 c ((pyStrip_isInfix _ _).subset hc)
    · obtain ⟨t, ht⟩ := pyStrip_prefix isUnd (subRuns isUnd '_'
        (subRuns (fun c => ! isLowerAlnum c) '_' ((pyStrip isPyWS l).map lowerChar)))
      exact noTwoBad_append_left (ht ▸ noTwoBad_dropWhile hndS3)
    · exact headNotBad_of_prefix ( pyStrip_prefix _ _) (headNotBad_dropWhile _ _)
    · show headNotBad isUnd (stripEnd isUnd _).reverse = true
      unfold stripEnd
      rw [List.reverse_reverse]
      exact headNotBad_dropWhile _ _

theorem NF_zone_lit : NF ((r"zone").data) = true := by decide

/-- Every alias value is in normal form and is itself an alias key mapped to
itself (so canonicalization fixes it). -/
theorem alias_pairs_closed :
    ∀ p ∈ ZONE_ALIASES, NF p.2 = true ∧ dictLookup ZONE_ALIASES p.2 = some p.2 := by
  decide

theorem NF_canonical (l : List Char) : NF (canonical_zone_id l) = true := by
  simp only [canonical_zone_id]
  cases h : dictLookup ZONE_ALIASES (normalize_zone_id l) with
  | none => simpa using NF_normalize l
  | some v =>
    simp only [Option.getD_some]
    simp only [dictLookup, Option.map_eq_some'] at h
    obtain ⟨p, hp, hv⟩ := h
    have hmem := List.mem_of_find?_eq_some hp
    exact hv ▸ (alias_pairs_closed p hmem).1

/-- Canonical ids are either alias keys mapped to themselves or miss the
alias table entirely. -/
theorem canonical_fix_cases (l : List Char) :
    dictLookup ZONE_ALIASES (canonical_zone_id l) = some (canonical_zone_id l) ∨
      dictLookup ZONE_ALIASES (canonical_zone_id l) = none := by
  simp only [canonical_zone_id]
  cases h : dictLookup ZONE_ALIASES (normalize_zone_id l) with
  | none => right; simpa using h
  | some v =>
    left
    simp only [Option.getD_some]
    simp only [dictLookup, Option.map_eq_some'] at h
    obtain ⟨p, hp, hv⟩ := h
    exact hv ▸ (alias_pairs_closed p (List.mem_of_find?_eq_some hp)).2

/-- `_canonical_zone_id` is idempotent. -/
theorem canonical_idem (l : List Char) :
    canonical_zone_id (canonical_zone_id l) = canonical_zone_id l := by
  have hNF := NF_canonical l
  rcases canonical_fix_cases l with h | h
  · show (dictLookup ZONE_ALIASES (normalize_zone_id (canonical_zone_id l))).getD
        (normalize_zone_id (canonical_zone_id l)) = canonical_zone_id l
    rw [normalize_of_NF hNF, h]
    rfl
  · show (dictLookup ZONE_ALIASES (normalize_zone_id (canonical_zone_id l))).getD
        (normalize_zone_id (canonical_zone_id l)) = canonical_zone_id l
    rw [normalize_of_NF hNF, h]
    rfl

theorem noTwoBad_of_all_not {bad : Char → Bool} :
    ∀ {l : List Char}, (∀ c ∈ l, bad c = false) → noTwoBad bad l = true := by
  intro l
  induction l with
  | nil => intro _; rfl
  | cons a t ih =>
    intro h
    match t with
    | [] => rfl
    | b :: t' =>
      simp only [noTwoBad, Bool.and_eq_true]
      refine ⟨?_, ih (fun c hc => h c (List.mem_cons_of_mem _ hc))⟩
      have := h a (List.mem_cons_self _ _)
      simp [this]

theorem noTwoBad_append {bad : Char → Bool} :
    ∀ {l r : List Char}, noTwoBad bad l = true → noTwoBad bad r = true →
      (∀ a b, l.getLast? = some a → r.head? = some b → (bad a && bad b) = false) →
      noTwoBad bad (l ++ r) = true := by
  intro l
  induction l with
  | nil => intro r _ hr _; simpa using hr
  | cons c t ih =>
    intro r hl hr hj
    match t with
    | [] =>
      match r with
      | [] => rfl
      | b :: r' =>
        simp only [List.cons_append, List.nil_append, noTwoBad, Bool.and_eq_true]
        refine ⟨?_, hr⟩
        have := hj c b rfl rfl
        simp [this]
    | a :: t' =>
      simp only [List.cons_append, noTwoBad, Bool.and_eq_true] at hl ⊢
      refine ⟨hl.1, ?_⟩
      exact ih hl.2 hr (fun x y hx hy =>
        hj x y (by rw [List.getLast?_cons_cons]; exact hx) hy)

theorem headNotBad_append_left {bad : Char → Bool} {l r : List Char} (h : l ≠ []) :
    headNotBad bad (l ++ r) = headNotBad bad l := by
  match l with
  | [] => exact absurd rfl h
  | c :: t => rfl

theorem natToStr_all_ok (n : Nat) : ∀ c ∈ natToStr n, okChar c = true := by
  intro c hc
  have hb := natToStr_all_bounds n c hc
  simp only [okChar, isLowerAlnum, isUnd, Bool.or_eq_true, Bool.and_eq_true,
    decide_eq_true_eq]
  left; right; exact hb

theorem natToStr_all_notUnd (n : Nat) : ∀ c ∈ natToStr n, isUnd c = false := by
  intro c hc
  have hb := natToStr_all_bounds n c hc
  cases h : isUnd c
  · rfl
  · exfalso
    simp only [isUnd, beq_iff_eq] at h
    subst h
    have h95 : ('_').toNat = 95 := rfl
    omega

theorem exists_getLast? {l : List Char} (h : l ≠ []) :
    ∃ g, l.getLast? = some g ∧ g ∈ l := by
  induction l with
  | nil => exact absurd rfl h
  | cons a t ih =>
    match t with
    | [] => exact ⟨a, by simp, List.mem_cons_self _ _⟩
    | b :: t' =>
      obtain ⟨g, hg, hmem⟩ := ih (by simp)
      exact ⟨g, by rw [List.getLast?_cons_cons]; exact hg, List.mem_cons_of_mem _ hmem⟩

theorem headNotBad_reverse {bad : Char → Bool} {l : List Char}
    (h : ∀ a, l.getLast? = some a → bad a = false) : headNotBad bad l.reverse = true := by
  match hm : l.reverse with
  | [] => rfl
  | x :: xs =>
    simp only [headNotBad, Bool.not_eq_true']
    apply h
    rw [← List.head?_reverse, hm]
    rfl

/-- Appending an underscore and a decimal number to a normal-form id yields a
normal-form id. -/
theorem NF_suffix_num {c : List Char} (h : NF c = true) (k : Nat) :
    NF (c ++ '_' :: natToStr k) = true := by
  obtain ⟨hne, hall, hnd, hh, hl⟩ := NF_parts h
  simp only [NF, Bool.and_eq_true]
  refine ⟨⟨⟨⟨?_, ?_⟩, ?_⟩, ?_⟩, ?_⟩
  · cases c with
    | nil => exact absurd rfl hne
    | cons a t => simp
  · rw [List.all_eq_true]
    intro x hx
    rcases List.mem_append.mp hx with hx | hx
    · exact hall x hx
    · rcases List.mem_cons.mp hx with hx | hx
      · subst hx; decide
      · exact natToStr_all_ok k x hx
  · apply noTwoBad_append hnd
    · match hm : natToStr k with
      | [] => exact absurd hm (natToStr_ne_nil k)
      | d :: ds =>
        simp only [noTwoBad, Bool.and_eq_true]
        constructor
        · have hdu : isUnd d = false :=
            natToStr_all_notUnd k d (by rw [hm]; exact List.mem_cons_self _ _)
          simp [hdu]
        · apply noTwoBad_of_all_not
          intro x hx
          exact natToStr_all_notUnd k x (by rw [hm]; exact hx)
    · intro a b ha hb
      simp only [List.head?_cons, Option.some.injEq] at hb
      rw [← List.head?_reverse] at ha
      match hm : c.reverse with
      | [] => rw [hm] at ha; cases ha
      | x :: xs =>
        rw [hm] at ha
        simp only [List.head?_cons, Option.some.injEq] at ha
        have hha := hl
        rw [hm] at hha
        simp only [headNotBad, Bool.not_eq_true'] at hha
        subst ha
        rw [hha]
        simp
  · rw [headNotBad_append_left hne]; exact hh
  · apply headNotBad_reverse
    intro a ha
    rw [List.getLast?_append] at ha
    obtain ⟨g, hg, hgm⟩ := exists_getLast? (natToStr_ne_nil k)
    have hcolon : ('_' :: natToStr k).getLast? = some g := by
      match hm : natToStr k with
      | [] => exact absurd hm (natToStr_ne_nil k)
      | d :: ds =>
        rw [List.getLast?_cons_cons]
        rw [hm] at hg
        exact hg
    rw [hcolon, Option.or_some] at ha
    have hag : g = a := by injection ha
    subst hag
    exact natToStr_all_notUnd k g hgm

/-- Every alias key ends in a non-digit character. -/
theorem aliasKeys_last_check :
    ZONE_ALIASES.all (fun p =>
      match p.1.getLast? with
      | some ch => ! (48 ≤ ch.toNat && ch.toNat ≤ 57)
      | none => false) = true := by
  decide

theorem lookup_none_of_last_digit {l : List Char} {d : Char}
    (hd : l.getLast? = some d) (hdig : 48 ≤ d.toNat ∧ d.toNat ≤ 57) :
    dictLookup ZONE_ALIASES l = none := by
  unfold dictLookup
  rw [Option.map_eq_none', List.find?_eq_none]
  intro p hp
  simp only [decide_eq_true_eq]
  intro heq
  have hall := List.all_eq_true.mp aliasKeys_last_check p hp
  rw [heq, hd] at hall
  simp only [Bool.not_eq_true'] at hall
  rw [Bool.and_eq_false_iff] at hall
  simp only [decide_eq_false_iff_not] at hall
  omega

theorem canonical_fix_of_NF_miss {l : List Char} (hNF : NF l = true)
    (hmiss : dictLookup ZONE_ALIASES l = none) : canonical_zone_id l = l := by
  simp only [canonical_zone_id]
  rw [normalize_of_NF hNF, hmiss]
  rfl

/-- Canonicalization fixes a normal-form id extended with a numeric
disambiguation suffix. -/
theorem canonical_suffix_num {c : List Char} (hNF : NF c = true) (k : Nat) :
    canonical_zone_id (c ++ '_' :: natToStr k) = c ++ '_' :: natToStr k := by
  apply canonical_fix_of_NF_miss (NF_suffix_num hNF k)
  obtain ⟨g, hg, hgm⟩ := exists_getLast? (natToStr_ne_nil k)
  have hlast : (c ++ '_' :: natToStr k).getLast? = some g := by
    rw [List.getLast?_append]
    have hcolon : ('_' :: natToStr k).getLast? = some g := by
      match hm : natToStr k with
      | [] => exact absurd hm (natToStr_ne_nil k)
      | d :: ds =>
        rw [List.getLast?_cons_cons]
        rw [hm] at hg
        exact hg
    rw [hcolon, Option.or_some]
  exact lookup_none_of_last_digit hlast (natToStr_all_bounds k g hgm)

/-- Canonicalization fixes every id in its own image. -/
theorem canonical_idem_image {l x : List Char} (h : x = canonical_zone_id l) :
    canonical_zone_id x = x := by
  subst h
  exact canonical_idem l

/-! ### Data model (`app/dsl.py` shapes, as consumed by the render pipeline).

Fields the Python code reads with `dict.get` defaults are modelled as total
fields where an absent key and the falsy default are observably equivalent
(`name`, `color`, `order`, `type`, protocol strings); `label` distinguishes
absent (`none`) from present because `n.get("label", n["id"])` does. -/

structure ZoneR where
  id : List Char
  name : List Char
  order : Int
  color : List Char
deriving DecidableEq, Inhabited, Repr

structure NodeR where
  id : List Char
  label : Option (List Char)
  zone : List Char
  type : List Char
  tags : List (List Char)
deriving DecidableEq, Inhabited, Repr

structure FlowR where
  id : List Char
  source : List Char
  target : List Char
  flow_type : List Char
  protocol : List Char
  auth : List Char
  data_class : List Char
  label : Option (List Char)
deriving DecidableEq, Inhabited, Repr

structure TBR where
  id : List Char
  label : List Char
  between_zones : List (List Char)
deriving DecidableEq, Inhabited, Repr

structure Dsl where
  zones : List ZoneR
  nodes : List NodeR
  flows : List FlowR
  trust_boundaries : List TBR
deriving DecidableEq, Inhabited, Repr


/-! ### Python `sorted` (stable).  Any two stable sorts with the same key are
extensionally equal, so the stable insertion sort below computes exactly what
CPython's stable `sorted(..., key=...)` computes, while remaining structurally
recursive (kernel-reducible). -/

def insertStable (le : α → α → Bool) (x : α) : List α → List α
  | [] => [x]
  | y :: ys => if le x y then x :: y :: ys else y :: insertStable le x ys

def pySorted (le : α → α → Bool) : List α → List α
  | [] => []
  | x :: xs => insertStable le x (pySorted le xs)

theorem insertStable_perm (le : α → α → Bool) (x : α) :
    ∀ l : List α, (insertStable le x l).Perm (x :: l) := by
  intro l
  induction l with
  | nil => exact List.Perm.refl _
  | cons y ys ih =>
    by_cases h : le x y = true
    · simp only [insertStable, h, if_true]
      exact List.Perm.refl _
    · simp only [insertStable, h, if_false]
      exact (ih.cons y).trans (List.Perm.swap x y ys)

theorem pySorted_perm (le : α → α → Bool) :
    ∀ l : List α, (pySorted le l).Perm l := by
  intro l
  induction l with
  | nil => exact List.Perm.refl _
  | cons x xs ih =>
    exact (insertStable_perm le x (pySorted le xs)).trans (ih.cons x)

/-- `sorted(zones, key=lambda z: z.get("order", 0))`. -/
def sortByOrder (zs : List ZoneR) : List ZoneR :=
  pySorted (fun a b => decide (a.order ≤ b.order)) zs

theorem sortByOrder_perm (zs : List ZoneR) : (sortByOrder zs).Perm zs := by
  unfold sortByOrder
  exact pySorted_perm _ zs

/-! ### `_expand_dsl_to_density` (`app/dsl_render_validation.py`, lines 60-136) -/

def mkZone (nextZ : Nat) : ZoneR :=
  { id := (r"zone_").data ++ natToStr nextZ
  , name := (r"Zone ").data ++ natToStr (nextZ + 1)
  , order := Int.ofNat nextZ
  , color := (r"#e1d5e7").data }

def mkTb (nextZ nTbs : Nat) (prevId thisId : List Char) : TBR :=
  { id := (r"tb_").data ++ natToStr nextZ
  , label := (r"TB").data ++ natToStr (nTbs + 1)
  , between_zones := [prevId, thisId] }

/-- Zone-adding while-loop (lines 77-93).  `zones[-2]` after the append is the
last zone before the append; the list is nonempty whenever that branch runs. -/
def expandZonesLoop (minZones : Nat) :
    Nat → List ZoneR → List TBR → Nat → List ZoneR × List TBR
  | 0, zones, tbs, _ => (zones, tbs)
  | fuel + 1, zones, tbs, nextZ =>
    if zones.length < minZones then
      let z := mkZone nextZ
      let zones' := zones ++ [z]
      let tbs' :=
        if 2 ≤ zones'.length then
          tbs ++ [mkTb nextZ tbs.length (((zones.getLast?).map (fun w => w.id)).getD []) z.id]
        else tbs
      expandZonesLoop minZones fuel zones' tbs' (nextZ + 1)
    else (zones, tbs)

def mkNode (nextN : Nat) (zid : List Char) : NodeR :=
  { id := (r"node_").data ++ natToStr nextN
  , label := some ((r"Component ").data ++ natToStr (nextN + 1))
  , zone := zid
  , type := (r"service").data
  , tags := [] }

/-- Node-adding while-loop (lines 96-110).  `none` models the
`ZeroDivisionError` Python raises when `zone_order` is empty and an iteration
is needed. -/
def expandNodesLoop (minNodes : Nat) (zoneOrder : List ZoneR) :
    Nat → List NodeR → List (List Char × NodeR) → Nat →
      Option (List NodeR × List (List Char × NodeR))
  | 0, nodes, nodeById, _ => some (nodes, nodeById)
  | fuel + 1, nodes, nodeById, nextN =>
    if nodes.length < minNodes then
      match zoneOrder.get? (nextN % zoneOrder.length) with
      | none => none
      | some z =>
        let n := mkNode nextN z.id
        expandNodesLoop minNodes zoneOrder fuel (nodes ++ [n])
          (dictInsert nodeById n.id n) (nextN + 1)
    else some (nodes, nodeById)

def mkFlow (nextF : Nat) (src tgt : List Char) : FlowR :=
  { id := (r"flow_").data ++ natToStr nextF
  , source := src
  , target := tgt
  , flow_type := (r"api").data
  , protocol := (r"HTTPS").data
  , auth := []
  , data_class := []
  , label := none }

/-- Flow-adding while-loop (lines 113-128); both indices are in range when the
guard holds, so the `getD` defaults are never read. -/
def expandFlowsLoop (minFlows : Nat) (nodeList : List (List Char)) :
    Nat → List FlowR → Nat → List FlowR
  | 0, flows, _ => flows
  | fuel + 1, flows, nextF =>
    if flows.length < minFlows ∧ 2 ≤ nodeList.length then
      let i := nextF % (nodeList.length - 1)
      expandFlowsLoop minFlows nodeList fuel
        (flows ++ [mkFlow nextF (nodeList.getD i []) (nodeList.getD (i + 1) [])])
        (nextF + 1)
    else flows

/-- `_expand_dsl_to_density`.  The `zone_ids` parameter of the source is never
read by the function body and is omitted; `node_by_id` is threaded as in the
source (the node loop inserts every minted node).  Fuel equal to each minimum
is enough for each while-loop since every iteration grows the collection. -/
def expand_dsl_to_density (dsl : Dsl) (nodeById : List (List Char × NodeR))
    (minZones minNodes minFlows : Nat) : Option Dsl :=
  let zt := expandZonesLoop minZones minZones dsl.zones dsl.trust_boundaries dsl.zones.length
  let zoneOrder := sortByOrder zt.1
  match expandNodesLoop minNodes zoneOrder minNodes dsl.nodes nodeById dsl.nodes.length with
  | none => none
  | some nn =>
    let nodeList := dictKeys nn.2
    let flows := expandFlowsLoop minFlows nodeList minFlows dsl.flows dsl.flows.length
    some { dsl with zones := zt.1, nodes := nn.1, flows := flows, trust_boundaries := zt.2 }

/-! ### `validate_and_prepare_dsl` (lines 139-232) -/

def MIN_ZONES : Nat := 5
def MIN_NODES : Nat := 25
def MIN_FLOWS : Nat := 20
def MIN_NODES_HARD : Nat := 1

def suffixed (c : List Char) (k : Nat) : List Char :=
  if k = 0 then c else c ++ '_' :: natToStr k

structure RenameState where
  seen : List (List Char × Nat)
  map : List (List Char × List Char)
  zones : List ZoneR
deriving DecidableEq, Inhabited, Repr

/-- One iteration of the zone-id uniqueness pass (lines 176-185). -/
def renameStep (st : RenameState) (z : ZoneR) : RenameState :=
  let c := canonical_zone_id z.id
  match dictLookup st.seen c with
  | some k =>
    { seen := dictInsert st.seen c (k + 1)
    , map := dictInsert st.map z.id (suffixed c (k + 1))
    , zones := st.zones ++ [{ z with id := suffixed c (k + 1) }] }
  | none =>
    { seen := dictInsert st.seen c 0
    , map := dictInsert st.map z.id c
    , zones := st.zones ++ [{ z with id := c }] }

def renameZones (zs : List ZoneR) : RenameState :=
  zs.foldl renameStep { seen := [], map := [], zones := [] }

/-- `zone_id_map.get(zid, zid)`; the source's `n.get("zone") or ""` is the
identity in this total model (an absent zone and `""` behave alike). -/
def remapZone (m : List (List Char × List Char)) (zid : List Char) : List Char :=
  (dictLookup m zid).getD zid

def remapNodes (m : List (List Char × List Char)) (nodes : List NodeR) : List NodeR :=
  nodes.map (fun n => { n with zone := remapZone m n.zone })

def invalidZoneMsg (n : NodeR) : List Char :=
  (r"Node '").data ++ n.id ++ (r"' references invalid zone '").data ++
    n.zone ++ (r"'.").data

def hardMinMsg (minNodesHard found : Nat) : List Char :=
  (r"At least ").data ++ natToStr minNodesHard ++
    (r" node(s) are required (found ").data ++ natToStr found ++ (r").").data

def flowSrcWarn (f : FlowR) : List Char :=
  (r"Flow ").data ++ f.id ++ (r" references non-existent source node ").data ++ f.source

def flowTgtWarn (f : FlowR) : List Char :=
  (r"Flow ").data ++ f.id ++ (r" references non-existent target node ").data ++ f.target

def emptyZoneWarn (zid : List Char) : List Char :=
  (r"Zone '").data ++ zid ++ (r"' has zero nodes.").data

def flowWarnings (flows : List FlowR) (validNodeIds : List (List Char)) :
    List (List Char) :=
  flows.flatMap (fun f =>
    (if f.source ∈ validNodeIds then [] else [flowSrcWarn f]) ++
      (if f.target ∈ validNodeIds then [] else [flowTgtWarn f]))

def nodesPerZone (zones : List ZoneR) (nodes : List NodeR) :
    List (List Char × Nat) :=
  let init := zones.foldl (fun m z => dictInsert m z.id 0) []
  nodes.foldl (fun m n => dictInsert m n.zone ((dictLookup m n.zone).getD 0 + 1)) init

def emptyZoneWarnings (zones : List ZoneR) (nodes : List NodeR) : List (List Char) :=
  (nodesPerZone zones nodes).filterMap
    (fun p => if p.2 = 0 then some (emptyZoneWarn p.1) else none)

structure PrepResult where
  result : Option Dsl
  errors : List (List Char)
  warnings : List (List Char)
  expanded : Bool
deriving DecidableEq, Inhabited, Repr

/-- `validate_and_prepare_dsl`.  The outer `Option` models an uncaught Python
exception; a `PrepResult` models a normal return `(prepared_dsl, errors)`
together with the warnings the function logs and whether the
density-expansion branch ran. -/
def validate_and_prepare_dsl (dsl : Dsl)
    (minZones minNodes minFlows minNodesHard : Nat)
    (expandToMeetDensity : Bool) : Option PrepResult :=
  let zones := sortByOrder dsl.zones
  if zones.isEmpty ∧ ¬ expandToMeetDensity then
    some { result := none, errors := [(r"At least one zone is required.").data]
         , warnings := [], expanded := false }
  else if zones.isEmpty ∧ expandToMeetDensity then
    match expand_dsl_to_density
        { dsl with zones := [], nodes := [], flows := [], trust_boundaries := [] }
        [] minZones minNodes minFlows with
    | none => none
    | some d => some { result := some d, errors := [], warnings := [], expanded := true }
  else
    let rst := renameZones zones
    let zones2 := rst.zones
    let zoneIds2 := zones2.map (fun z => z.id)
    let nodes2 := remapNodes rst.map dsl.nodes
    let errs := nodes2.filterMap
      (fun n => if n.zone ∈ zoneIds2 then none else some (invalidZoneMsg n))
    if errs.isEmpty = false then
      some { result := none, errors := errs, warnings := [], expanded := false }
    else if nodes2.length < minNodesHard then
      some { result := none, errors := [hardMinMsg minNodesHard nodes2.length]
           , warnings := [], expanded := false }
    else
      let validNodeIds := nodes2.map (fun n => n.id)
      let warns := flowWarnings dsl.flows validNodeIds ++ emptyZoneWarnings zones2 nodes2
      if expandToMeetDensity ∧
          (zones2.length < minZones ∨ nodes2.length < minNodes ∨
            dsl.flows.length < minFlows) then
        match expand_dsl_to_density
            { dsl with zones := zones2, nodes := nodes2, flows := dsl.flows
                     , trust_boundaries := dsl.trust_boundaries }
            (buildDict (fun n => n.id) nodes2) minZones minNodes minFlows with
        | none => none
        | some d => some { result := some d, errors := [], warnings := warns, expanded := true }
      else
        let prepared : Dsl :=
          { dsl with zones := zones2, nodes := nodes2, flows := dsl.flows
                   , trust_boundaries := dsl.trust_boundaries }
        some { result := some prepared, errors := [], warnings := warns, expanded := false }

/-- Caller-visible state of the input after `validate_and_prepare_dsl`: lines
189-191 rewrite each caller node dict's `"zone"` entry in place on every path
that reaches the remap loop (both empty-zone paths return before it). -/
def input_after_prepare (dsl : Dsl) : Dsl :=
  let zones := sortByOrder dsl.zones
  if zones.isEmpty then dsl
  else { dsl with nodes := remapNodes (renameZones zones).map dsl.nodes }

/-! ### `dsl_to_drawio.py`: layout constants, styles, XML cells, serializer -/

def CANVAS_WIDTH : Nat := 1400
def ZONE_HEADER_HEIGHT : Nat := 32
def NODE_W : Nat := 160
def NODE_H : Nat := 60
def GAP_X : Nat := 40
def GAP_Y : Nat := 40
def PADDING : Nat := 40
def TB_HEIGHT : Nat := 24
def LEGEND_HEIGHT : Nat := 160
def LEGEND_WIDTH : Nat := 400

def STYLE_APP : List Char :=
  (r"rounded=1;whiteSpace=wrap;html=1;fillColor=#d5e8d4;strokeColor=#82b366;strokeWidth=1;").data
def STYLE_SERVICE : List Char :=
  (r"rounded=1;whiteSpace=wrap;html=1;fillColor=#d5e8d4;strokeColor=#82b366;strokeWidth=1;").data
def STYLE_API : List Char :=
  (r"shape=hexagon;perimeter=hexagonPerimeter2;whiteSpace=wrap;html=1;fillColor=#dae8fc;strokeColor=#6c8ebf;strokeWidth=1;").data
def STYLE_DATA_STORE : List Char :=
  (r"shape=cylinder3;whiteSpace=wrap;html=1;boundedLbl=1;backgroundOutline=1;size=15;fillColor=#fff2cc;strokeColor=#d6b656;strokeWidth=1;").data
def STYLE_IDENTITY : List Char :=
  (r"shape=ellipse;whiteSpace=wrap;html=1;fillColor=#e1d5e7;strokeColor=#9673a6;strokeWidth=1;").data
def STYLE_SECURITY : List Char :=
  (r"shape=shield;whiteSpace=wrap;html=1;fillColor=#f8cecc;strokeColor=#b85450;strokeWidth=2;").data
def STYLE_VENDOR : List Char :=
  (r"rounded=1;whiteSpace=wrap;html=1;fillColor=#f5f5f5;strokeColor=#666666;dashed=1;strokeWidth=1;").data
def STYLE_EXTERNAL : List Char :=
  (r"rounded=1;whiteSpace=wrap;html=1;fillColor=#f5f5f5;strokeColor=#666666;dashed=1;strokeWidth=1;").data
def STYLE_EDGE_SOLID : List Char :=
  (r"endArrow=block;html=1;rounded=0;curved=0;orthogonalLoop=1;exitX=1;exitY=0.5;exitDx=0;exitDy=0;entryX=0;entryY=0.5;entryDx=0;entryDy=0;strokeColor=#6c8ebf;strokeWidth=2;").data
def STYLE_EDGE_DASHED : List Char :=
  (r"endArrow=block;html=1;rounded=0;dashed=1;curved=0;orthogonalLoop=1;exitX=1;exitY=0.5;exitDx=0;exitDy=0;entryX=0;entryY=0.5;entryDx=0;entryDy=0;strokeColor=#999999;strokeWidth=1;").data
def STYLE_TB : List Char :=
  (r"shape=rect;fillColor=none;strokeColor=#b85450;strokeWidth=2;dashed=1;html=1;").data
def STYLE_LEGEND : List Char :=
  (r"rounded=0;whiteSpace=wrap;html=1;fillColor=#f5f5f5;strokeColor=#666666;align=left;verticalAlign=top;spacingLeft=8;spacingTop=6;fontSize=11;").data
def STYLE_TBLBL : List Char :=
  (r"text;html=1;strokeColor=none;fillColor=none;align=center;verticalAlign=middle;fontSize=10;fontColor=#b85450;").data

/-- `_node_style` (lines 46-57). -/
def node_style (t : List Char) : List Char :=
  (dictLookup
    [ ((r"app").data, STYLE_APP)
    , ((r"service").data, STYLE_SERVICE)
    , ((r"api").data, STYLE_API)
    , ((r"data_store").data, STYLE_DATA_STORE)
    , ((r"identity").data, STYLE_IDENTITY)
    , ((r"security_control").data, STYLE_SECURITY)
    , ((r"vendor").data, STYLE_VENDOR)
    , ((r"external").data, STYLE_EXTERNAL) ] t).getD STYLE_APP

/-- `_flow_style` (lines 60-63). -/
def flow_style (t : List Char) : List Char :=
  if t = (r"log").data ∨ t = (r"telemetry").data then STYLE_EDGE_DASHED else STYLE_EDGE_SOLID

def joinSep (sep : List Char) : List (List Char) → List Char
  | [] => []
  | [x] => x
  | x :: xs => x ++ sep ++ joinSep sep xs

/-- `_flow_label` (lines 66-70). -/
def flow_label (f : FlowR) : List Char :=
  if f.label.getD [] ≠ [] then f.label.getD []
  else
    let parts := [f.protocol, f.auth, f.data_class].filter (fun p => p ≠ [])
    let joined := pyStrip isPyWS (joinSep ((r" | ").data) parts)
    if joined = [] then (r" ").data else joined

/-! XML cells.  The document built by `dsl_to_drawio` has the fixed shape
`mxfile > diagram > mxGraphModel > root > [mxCell*]`, each `mxCell` optionally
carrying one `mxGeometry` child; the serializer is embedded for exactly this
shape.  `ElementTree.tostring` (with falsy `default_namespace=""`) emits no
declaration, writes attributes in insertion order, escapes attribute values
with `_escape_attrib`, and writes childless elements as `<tag ... />`. -/

structure MxCell where
  attrs : List (List Char × List Char)
  geom : Option (List (List Char × List Char))
deriving DecidableEq, Inhabited, Repr

def escAttrChar (c : Char) : List Char :=
  if c = '&' then (r"&amp;").data
  else if c = '<' then (r"&lt;").data
  else if c = '>' then (r"&gt;").data
  else if c = '"' then (r"&quot;").data
  else if c = '\r' then (r"&#13;").data
  else if c = '\n' then (r"&#10;").data
  else if c = '\t' then (r"&#09;").data
  else [c]

def escapeAttr (v : List Char) : List Char := v.flatMap escAttrChar

def serAttrs (attrs : List (List Char × List Char)) : List Char :=
  attrs.flatMap (fun kv => ' ' :: (kv.1 ++ '=' :: '"' :: (escapeAttr kv.2 ++ ['"'])))

def serCell (c : MxCell) : List Char :=
  (r"<mxCell").data ++ serAttrs c.attrs ++
    (match c.geom with
     | none => (r" />").data
     | some g =>
       (r">").data ++ (r"<mxGeometry").data ++ serAttrs g ++ (r" />").data ++
         (r"</mxCell>").data)

def mxfileAttrs : List (List Char × List Char) :=
  [ ((r"host").data, (r"app.diagrams.net").data)
  , ((r"modified").data, (r"2025-01-01T00:00:00.000Z").data) ]

def diagramAttrs : List (List Char × List Char) :=
  [ ((r"id").data, (r"security-arch").data)
  , ((r"name").data, (r"Security Reference Architecture").data) ]

def modelAttrs : List (List Char × List Char) :=
  [ ((r"dx").data, (r"1422").data), ((r"dy").data, (r"794").data)
  , ((r"grid").data, (r"1").data), ((r"gridSize").data, (r"10").data)
  , ((r"guides").data, (r"1").data), ((r"tooltips").data, (r"1").data)
  , ((r"connect").data, (r"1").data), ((r"arrows").data, (r"1").data)
  , ((r"fold").data, (r"1").data), ((r"page").data, (r"1").data)
  , ((r"pageScale").data, (r"1").data), ((r"pageWidth").data, (r"1600").data)
  , ((r"pageHeight").data, (r"3200").data), ((r"math").data, (r"0").data)
  , ((r"shadow").data, (r"0").data) ]

/-- `ET.tostring` specialized to the document shape `dsl_to_drawio` builds. -/
def serializeDoc (cells : List MxCell) : List Char :=
  (r"<mxfile").data ++ serAttrs mxfileAttrs ++ (r">").data ++
  (r"<diagram").data ++ serAttrs diagramAttrs ++ (r">").data ++
  (r"<mxGraphModel").data ++ serAttrs modelAttrs ++ (r">").data ++
  (r"<root>").data ++ cells.flatMap serCell ++
  (r"</root></mxGraphModel></diagram></mxfile>").data

/-! ### `_serialize_xml_safe` (lines 119-134) -/

def XML_DECL : List Char := ("<?xml version=\"1.0\" encoding=\"UTF-8\"?>\n").data

def isPre : List Char → List Char → Bool
  | [], _ => true
  | _ :: _, [] => false
  | a :: as, b :: bs => a = b && isPre as bs

def countOccAux (p : List Char) : Nat → List Char → Nat
  | acc, [] => acc
  | acc, c :: t => countOccAux p (if isPre p (c :: t) then acc + 1 else acc) t

/-- Number of (possibly overlapping) occurrences of `p` in the text. -/
def countOcc (p s : List Char) : Nat := countOccAux p 0 s

theorem countOccAux_acc (p : List Char) :
    ∀ (s : List Char) (acc : Nat), countOccAux p acc s = acc + countOccAux p 0 s := by
  intro s
  induction s with
  | nil => intro acc; simp [countOccAux]
  | cons c t ih =>
    intro acc
    by_cases h : isPre p (c :: t) = true
    · simp only [countOccAux, h, if_true]
      rw [ih (acc + 1), ih 1]
      omega
    · rw [Bool.not_eq_true] at h
      simp only [countOccAux, h, Bool.false_eq_true, if_false]
      exact ih acc

theorem countOcc_nil (p : List Char) : countOcc p [] = 0 := rfl

theorem countOcc_cons (p : List Char) (c : Char) (t : List Char) :
    countOcc p (c :: t) = (if isPre p (c :: t) then 1 else 0) + countOcc p t := by
  simp only [countOcc, countOccAux]
  by_cases h : isPre p (c :: t) = true
  · simp only [h, if_true]
    rw [countOccAux_acc p t 1]
  · simp [h]

/-- Python `str.index`: offset of the first occurrence (list length if
absent; the source only calls it with an occurrence present). -/
def indexOfSub (p : List Char) : List Char → Nat
  | [] => 0
  | c :: t => if isPre p (c :: t) then 0 else indexOfSub p t + 1

/-- Match length of `[^>]*\?>` at the start of `s`: the run of non-`>`
characters must end in `?` immediately before the first `>`. -/
def matchDeclLen (s : List Char) : Option Nat :=
  let j := (s.takeWhile (fun c => c ≠ '>')).length
  if 1 ≤ j ∧ j < s.length ∧ s.getD (j - 1) ' ' = '?' then some (j + 1) else none

/-- `re.sub(r"<\?xml[^>]*\?>\s*", "", s)` (fuelled scanner over `s`). -/
def removeDeclsSubAux : Nat → List Char → List Char
  | 0, s => s
  | fuel + 1, s =>
    match s with
    | [] => []
    | c :: t =>
      if isPre ((r"<?xml").data) s then
        match matchDeclLen (s.drop 5) with
        | some k => removeDeclsSubAux fuel ((s.drop (5 + k)).dropWhile isPyWS)
        | none => c :: removeDeclsSubAux fuel t
      else c :: removeDeclsSubAux fuel t

def removeDeclsSub (s : List Char) : List Char := removeDeclsSubAux s.length s

/-- The defensive duplicate-declaration strip (lines 125-129). -/
def repairDecls (out : List Char) : List Char :=
  let first := indexOfSub ((r"<?xml").data) out
  let second := first + indexOfSub ((r"?>").data) (out.drop first) + 2
  let rest := (out.drop second).dropWhile isPyWS
  out.take second ++ '\n' :: removeDeclsSub rest

/-- `_serialize_xml_safe`: prepend one declaration, strip duplicates if any.
The trailing `assert` statements are the verification conditions settled by
the serialization theorems, not guards on the returned value. -/
def serialize_xml_safe (cells : List MxCell) : List Char :=
  let rough := serializeDoc cells
  let out := XML_DECL ++ rough
  if 1 < countOcc ((r"<?xml").data) out then repairDecls out else out

/-! ### `dsl_to_drawio` layout and cell construction (lines 137-271) -/

def zoneSorted (g : Dsl) : List ZoneR :=
  sortByOrder g.zones

/-- `nodes_in_zone` (lines 155-158): `setdefault(zid, []).append(n)`. -/
def nodesInZone (nodes : List NodeR) : List (List Char × List NodeR) :=
  nodes.foldl (fun m n => dictInsert m n.zone ((dictLookup m n.zone).getD [] ++ [n])) []

def content_width : Nat := CANVAS_WIDTH - 2 * PADDING

def cols_max : Nat := max 1 ((content_width + GAP_X) / (NODE_W + GAP_X))

/-- `rows` for a zone (line 174): minimum one row even when empty. -/
def rowsFor (nCount : Nat) : Nat :=
  if nCount = 0 then 1 else (nCount + cols_max - 1) / cols_max

/-- Zone height (lines 175-176). -/
def zoneHeight (nCount : Nat) : Nat :=
  ZONE_HEADER_HEIGHT + (PADDING + rowsFor nCount * (NODE_H + GAP_Y))

def zoneHeightsMap (zones : List ZoneR) (niz : List (List Char × List NodeR)) :
    List (List Char × Nat) :=
  zones.foldl
    (fun m z => dictInsert m z.id (zoneHeight ((dictLookup niz z.id).getD []).length)) []

/-- `zone_geometry` (lines 178-184): `(x, y, w, h)` per zone id plus the final
`y_cursor` (all layout quantities are integral, see the constants above). -/
def zoneGeometryMap (zones : List ZoneR) (zh : List (List Char × Nat)) :
    List (List Char × (Nat × Nat × Nat × Nat)) × Nat :=
  zones.foldl
    (fun acc z =>
      let h := (dictLookup zh z.id).getD 0
      (dictInsert acc.1 z.id (0, acc.2, CANVAS_WIDTH, h), acc.2 + h))
    ([], 0)

/-- Column count inside one zone (line 219). -/
def colsFor (nList : List NodeR) : Nat :=
  max 1 (if nList.isEmpty then 1 else min cols_max nList.length)

def nodeX (i cols : Nat) : Nat := PADDING + (i % cols) * (NODE_W + GAP_X)

def nodeY (i cols : Nat) : Nat := PADDING + (i / cols) * (NODE_H + GAP_Y)

/-- The two defensive bounds assertions of the node-placement loop (lines
225-227), checked for every zone and every node index of a graph: the node
must lie inside its zone's content box (`x ≥ 0` and `y ≥ 0` hold by the `Nat`
representation; the Python values are the same non-negative integers). -/
def placementAssertOk (g : Dsl) : Bool :=
  let niz := nodesInZone g.nodes
  (zoneSorted g).all (fun z =>
    let nList := (dictLookup niz z.id).getD []
    let cols := colsFor nList
    let contentH := zoneHeight nList.length - ZONE_HEADER_HEIGHT
    (List.range nList.length).all (fun i =>
      decide (nodeX i cols + NODE_W ≤ CANVAS_WIDTH) &&
        decide (nodeY i cols + NODE_H ≤ contentH)))

def intStr (n : Nat) : List Char := natToStr n

/-- Python renders the (integral-valued) float layout coordinates with a
trailing `.0`. -/
def floatStr (n : Nat) : List Char := natToStr n ++ (r".0").data

/-- Attribute list exactly as `_add_cell` builds it (lines 85-116): `id` and
`parent` at element creation, then conditionally `value`, `style`, `vertex`,
`edge`, and finally `source`/`target` (set after the geometry child). -/
def addCellAttrs (cellId parentId value style : List Char) (vertex edge : Bool)
    (src tgt : Option (List Char)) : List (List Char × List Char) :=
  [((r"id").data, cellId), ((r"parent").data, parentId)] ++
  (if value ≠ [] then [((r"value").data, value)] else []) ++
  (if style ≠ [] then [((r"style").data, style)] else []) ++
  (if vertex then [((r"vertex").data, (r"1").data)] else []) ++
  (if edge then [((r"edge").data, (r"1").data)] else []) ++
  (match src with | some s => [((r"source").data, s)] | none => []) ++
  (match tgt with | some t => [((r"target").data, t)] | none => [])

def geomAttrs (x y w h relative : List Char) : List (List Char × List Char) :=
  [ ((r"x").data, x), ((r"y").data, y), ((r"width").data, w)
  , ((r"height").data, h), ((r"relative").data, relative)
  , ((r"as").data, (r"geometry").data) ]

def swimlaneStyle (fill : List Char) : List Char :=
  (r"swimlane;horizontal=1;startSize=").data ++ natToStr ZONE_HEADER_HEIGHT ++
    (r";fillColor=").data ++ fill ++
    (r";strokeColor=#6c8ebf;fontStyle=1;fontSize=12;whiteSpace=wrap;html=1;").data

def legendText : List Char :=
  (r"Legend&#xa;• Solid line: API / Auth / Data flow&#xa;• Dashed line: Log / Telemetry&#xa;• Red dashed: Trust boundary&#xa;• Rounded rect: App/Service | Hexagon: API | Cylinder: Data store&#xa;• Ellipse: Identity | Shield: Control | Dashed border: External/Vendor").data

/-- Zone swimlane cells (lines 200-208); returns the cells, the
`zone_cell_ids` dict and the advanced id counter. -/
def buildZoneCells (zones : List ZoneR)
    (zg : List (List Char × (Nat × Nat × Nat × Nat))) (ctr0 : Nat) :
    List MxCell × List (List Char × List Char) × Nat :=
  zones.foldl
    (fun acc z =>
      let g4 := (dictLookup zg z.id).getD (0, 0, 0, 0)
      let cellId := (r"zone-").data ++ natToStr acc.2.2
      let fill := pyStrip isPyWS (if z.color ≠ [] then z.color else (r"#dae8fc").data)
      let value := if z.name ≠ [] then z.name else z.id
      let cell : MxCell :=
        { attrs := addCellAttrs cellId ((r"1").data) value (swimlaneStyle fill)
            true false none none
        , geom := some (geomAttrs (intStr g4.1) (floatStr g4.2.1) (intStr g4.2.2.1)
            (intStr g4.2.2.2) ((r"0").data)) }
      (acc.1 ++ [cell], dictInsert acc.2.1 z.id cellId, acc.2.2 + 1))
    ([], [], ctr0)

/-- Node cells (lines 210-231); returns the cells, `node_cell_ids` and the
counter. -/
def buildNodeCells (zones : List ZoneR) (niz : List (List Char × List NodeR))
    (zoneCellIds : List (List Char × List Char)) (ctr0 : Nat) :
    List MxCell × List (List Char × List Char) × Nat :=
  zones.foldl
    (fun accz z =>
      let parentId := (dictLookup zoneCellIds z.id).getD []
      let nList := (dictLookup niz z.id).getD []
      let cols := colsFor nList
      nList.enum.foldl
        (fun acc inode =>
          let cellId := (r"node-").data ++ natToStr acc.2.2
          let n := inode.2
          let cell : MxCell :=
            { attrs := addCellAttrs cellId parentId (n.label.getD n.id)
                (node_style n.type) true false none none
            , geom := some (geomAttrs (intStr (nodeX inode.1 cols))
                (intStr (nodeY inode.1 cols)) (intStr NODE_W) (intStr NODE_H)
                ((r"1").data)) }
          (acc.1 ++ [cell], dictInsert acc.2.1 n.id cellId, acc.2.2 + 1))
        accz)
    ([], [], ctr0)

/-- Trust-boundary rule and label cells (lines 233-247); boundaries with fewer
than two zone references or unknown zones are skipped. -/
def buildTbCells (tbs : List TBR)
    (zg : List (List Char × (Nat × Nat × Nat × Nat))) (ctr0 : Nat) :
    List MxCell × Nat :=
  tbs.enum.foldl
    (fun acc itb =>
      let tb := itb.2
      match tb.between_zones with
      | z0 :: z1 :: _ =>
        match dictLookup zg z0, dictLookup zg z1 with
        | some g0, some _ =>
          let yLine := g0.2.1 + g0.2.2.2
          let label := pyStrip isPyWS
            (if tb.label ≠ [] then tb.label else (r"TB").data ++ natToStr (itb.1 + 1))
          let c1 : MxCell :=
            { attrs := addCellAttrs ((r"tb-").data ++ natToStr acc.2) ((r"1").data)
                label STYLE_TB true false none none
            , geom := some (geomAttrs (intStr 0) (floatStr yLine) (intStr CANVAS_WIDTH)
                (intStr 3) ((r"0").data)) }
          let c2 : MxCell :=
            { attrs := addCellAttrs ((r"tblbl-").data ++ natToStr (acc.2 + 1)) ((r"1").data)
                label STYLE_TBLBL true false none none
            , geom := some (geomAttrs (intStr (CANVAS_WIDTH / 2 - 40)) (floatStr (yLine - 16))
                (intStr 80) (intStr 16) ((r"0").data)) }
          (acc.1 ++ [c1, c2], acc.2 + 2)
        | _, _ => acc
      | _ => acc)
    ([], ctr0)

/-- Flow connector cells (lines 249-258); dangling flows are skipped. -/
def buildEdgeCells (flows : List FlowR) (nodeCellIds : List (List Char × List Char))
    (ctr0 : Nat) : List MxCell × Nat :=
  flows.foldl
    (fun acc f =>
      match dictLookup nodeCellIds f.source, dictLookup nodeCellIds f.target with
      | some cs, some ct =>
        let cell : MxCell :=
          { attrs := addCellAttrs ((r"edge-").data ++ natToStr acc.2) ((r"1").data)
              (flow_label f) (flow_style f.flow_type) false true (some cs) (some ct)
          , geom := some (geomAttrs (intStr 0) (intStr 0) (intStr 0) (intStr 0)
              ((r"1").data)) }
        (acc.1 ++ [cell], acc.2 + 1)
      | _, _ => acc)
    ([], ctr0)

/-- The full flat cell list of the document `dsl_to_drawio` builds from a
prepared graph: the two base cells `id="0"`, `id="1"`, then zones, nodes,
trust boundaries, flows, and the legend. -/
def dsl_to_drawio_cells (g : Dsl) : List MxCell :=
  let zones := zoneSorted g
  let niz := nodesInZone g.nodes
  let zh := zoneHeightsMap zones niz
  let zgc := zoneGeometryMap zones zh
  let yAfterTbs := zgc.2 + TB_HEIGHT * g.trust_boundaries.length
  let legendY := yAfterTbs + 20
  let base : List MxCell :=
    [ { attrs := [((r"id").data, (r"0").data)], geom := none }
    , { attrs := [((r"id").data, (r"1").data), ((r"parent").data, (r"0").data)]
      , geom := none } ]
  let zc := buildZoneCells zones zgc.1 1
  let nc := buildNodeCells zones niz zc.2.1 zc.2.2
  let tc := buildTbCells g.trust_boundaries zgc.1 nc.2.2
  let ec := buildEdgeCells g.flows nc.2.1 tc.2
  let legend : MxCell :=
    { attrs := addCellAttrs ((r"legend-").data ++ natToStr ec.2) ((r"1").data)
        legendText STYLE_LEGEND true false none none
    , geom := some (geomAttrs (intStr (CANVAS_WIDTH - LEGEND_WIDTH - 20))
        (floatStr legendY) (intStr LEGEND_WIDTH) (intStr LEGEND_HEIGHT) ((r"0").data)) }
  base ++ zc.1 ++ nc.1 ++ tc.1 ++ ec.1 ++ [legend]

/-- `dsl_to_drawio` (lines 137-271): validate and prepare with the module
defaults and expansion enabled, raise (`none`) on validation failure, else
serialize.  The placement `assert`s are settled by the layout theorems. -/
def dsl_to_drawio (dsl : Dsl) : Option (List Char) :=
  match validate_and_prepare_dsl dsl MIN_ZONES MIN_NODES MIN_FLOWS MIN_NODES_HARD true with
  | none => none
  | some r =>
    match r.result with
    | none => none
    | some g => some (serialize_xml_safe (dsl_to_drawio_cells g))

/-! ### `app/dsl.py`: pydantic models and `validate_dsl`

Raw payloads are modelled as JSON-like values.  The validator embeds pydantic
v2 semantics for the models declared in `dsl.py`: the root model carries
`model_config = {"extra": "forbid"}` and so rejects unknown top-level keys;
the entity models (`Zone`, `TrustBoundary`, `Group`, `Node`, `Flow`,
`Control`) use the default `extra="ignore"` and silently drop unknown keys.
Error texts are the "<dotted-path>: <message>" strings `validate_dsl`
formats; the claims depend only on whether the list is empty. -/

inductive JVal where
  | str : List Char → JVal
  | int : Int → JVal
  | bool : Bool → JVal
  | null : JVal
  | list : List JVal → JVal
  | obj : List (List Char × JVal) → JVal
deriving Inhabited, Repr

structure GroupR where
  id : List Char
  label : List Char
  zone : List Char
  children : List (List Char)
deriving DecidableEq, Inhabited, Repr

structure ControlR where
  id : List Char
  scope : List (List Char)
  control_type : List Char
deriving DecidableEq, Inhabited, Repr

structure ArchitectureDSL where
  title : Option (List Char)
  zones : List ZoneR
  trust_boundaries : List TBR
  groups : List GroupR
  nodes : List NodeR
  flows : List FlowR
  controls : List ControlR
deriving DecidableEq, Inhabited, Repr

def errAt (loc msg : List Char) : List Char := loc ++ (r": ").data ++ msg

def MSG_REQUIRED : List Char := (r"Field required").data
def MSG_STR : List Char := (r"Input should be a valid string").data
def MSG_INT : List Char := (r"Input should be a valid integer").data
def MSG_GE0 : List Char := (r"Input should be greater than or equal to 0").data
def MSG_ENUM : List Char := (r"Input should be a valid enumeration member").data
def MSG_LIST : List Char := (r"Input should be a valid list").data
def MSG_DICT : List Char := (r"Input should be a valid dictionary").data
def MSG_EXTRA : List Char := (r"Extra inputs are not permitted").data

def vStr (o : List (List Char × JVal)) (loc k : List Char) :
    List (List Char) × Option (List Char) :=
  match dictLookup o k with
  | some (.str s) => ([], some s)
  | some _ => ([errAt (loc ++ k) MSG_STR], none)
  | none => ([errAt (loc ++ k) MSG_REQUIRED], none)

def vStrD (o : List (List Char × JVal)) (loc k d : List Char) :
    List (List Char) × Option (List Char) :=
  match dictLookup o k with
  | some (.str s) => ([], some s)
  | some _ => ([errAt (loc ++ k) MSG_STR], none)
  | none => ([], some d)

def vOptStr (o : List (List Char × JVal)) (loc k : List Char) :
    List (List Char) × Option (Option (List Char)) :=
  match dictLookup o k with
  | some (.str s) => ([], some (some s))
  | some .null => ([], some none)
  | some _ => ([errAt (loc ++ k) MSG_STR], none)
  | none => ([], some none)

def vIntGe0 (o : List (List Char × JVal)) (loc k : List Char) :
    List (List Char) × Option Int :=
  match dictLookup o k with
  | some (.int n) =>
    if n < 0 then ([errAt (loc ++ k) MSG_GE0], none) else ([], some n)
  | some _ => ([errAt (loc ++ k) MSG_INT], none)
  | none => ([errAt (loc ++ k) MSG_REQUIRED], none)

def vEnum (o : List (List Char × JVal)) (loc k : List Char)
    (allowed : List (List Char)) (d : List Char) :
    List (List Char) × Option (List Char) :=
  match dictLookup o k with
  | some (.str s) =>
    if s ∈ allowed then ([], some s) else ([errAt (loc ++ k) MSG_ENUM], none)
  | some _ => ([errAt (loc ++ k) MSG_ENUM], none)
  | none => ([], some d)

def vStrListD (o : List (List Char × JVal)) (loc k : List Char) :
    List (List Char) × Option (List (List Char)) :=
  match dictLookup o k with
  | some (.list xs) =>
    let rs := xs.enum.map (fun ix =>
      match ix.2 with
      | .str s => (([] : List (List Char)), some s)
      | _ => ([errAt (loc ++ k ++ '.' :: natToStr ix.1) MSG_STR], none))
    (rs.flatMap Prod.fst,
      if rs.all (fun r => r.2.isSome) then some (rs.filterMap Prod.snd) else none)
  | some _ => ([errAt (loc ++ k) MSG_LIST], none)
  | none => ([], some [])

def NODE_TYPES : List (List Char) :=
  [ (r"app").data, (r"service").data, (r"api").data, (r"data_store").data
  , (r"identity").data, (r"security_control").data, (r"vendor").data
  , (r"external").data ]

def FLOW_TYPES : List (List Char) :=
  [ (r"api").data, (r"auth").data, (r"data").data, (r"log").data
  , (r"telemetry").data, (r"generic").data ]

def validateZone (loc : List Char) (v : JVal) : List (List Char) × Option ZoneR :=
  match v with
  | .obj o =>
    let rid := vStr o loc ((r"id").data)
    let rname := vStr o loc ((r"name").data)
    let rorder := vIntGe0 o loc ((r"order").data)
    let rcolor := vStrD o loc ((r"color").data) ((r"#dae8fc").data)
    (rid.1 ++ rname.1 ++ rorder.1 ++ rcolor.1,
      match rid.2, rname.2, rorder.2, rcolor.2 with
      | some i, some n, some o2, some c =>
        some { id := i, name := n, order := o2, color := c }
      | _, _, _, _ => none)
  | _ => ([errAt loc MSG_DICT], none)

def validateTb (loc : List Char) (v : JVal) : List (List Char) × Option TBR :=
  match v with
  | .obj o =>
    let rid := vStr o loc ((r"id").data)
    let rlabel := vStrD o loc ((r"label").data) []
    let rbz := vStrListD o loc ((r"between_zones").data)
    (rid.1 ++ rlabel.1 ++ rbz.1,
      match rid.2, rlabel.2, rbz.2 with
      | some i, some l, some b => some { id := i, label := l, between_zones := b }
      | _, _, _ => none)
  | _ => ([errAt loc MSG_DICT], none)

def validateGroup (loc : List Char) (v : JVal) : List (List Char) × Option GroupR :=
  match v with
  | .obj o =>
    let rid := vStr o loc ((r"id").data)
    let rlabel := vStr o loc ((r"label").data)
    let rzone := vStr o loc ((r"zone").data)
    let rch := vStrListD o loc ((r"children").data)
    (rid.1 ++ rlabel.1 ++ rzone.1 ++ rch.1,
      match rid.2, rlabel.2, rzone.2, rch.2 with
      | some i, some l, some z, some c =>
        some { id := i, label := l, zone := z, children := c }
      | _, _, _, _ => none)
  | _ => ([errAt loc MSG_DICT], none)

def validateNode (loc : List Char) (v : JVal) : List (List Char) × Option NodeR :=
  match v with
  | .obj o =>
    let rid := vStr o loc ((r"id").data)
    let rlabel := vStr o loc ((r"label").data)
    let rzone := vStr o loc ((r"zone").data)
    let rtype := vEnum o loc ((r"type").data) NODE_TYPES ((r"app").data)
    let rtags := vStrListD o loc ((r"tags").data)
    (rid.1 ++ rlabel.1 ++ rzone.1 ++ rtype.1 ++ rtags.1,
      match rid.2, rlabel.2, rzone.2, rtype.2, rtags.2 with
      | some i, some l, some z, some t, some tg =>
        some { id := i, label := some l, zone := z, type := t, tags := tg }
      | _, _, _, _, _ => none)
  | _ => ([errAt loc MSG_DICT], none)

def validateFlow (loc : List Char) (v : JVal) : List (List Char) × Option FlowR :=
  match v with
  | .obj o =>
    let rid := vStr o loc ((r"id").data)
    let rsrc := vStr o loc ((r"source").data)
    let rtgt := vStr o loc ((r"target").data)
    let rft := vEnum o loc ((r"flow_type").data) FLOW_TYPES ((r"generic").data)
    let rproto := vStrD o loc ((r"protocol").data) []
    let rauth := vStrD o loc ((r"auth").data) []
    let rdc := vStrD o loc ((r"data_class").data) []
    let rlabel := vOptStr o loc ((r"label").data)
    (rid.1 ++ rsrc.1 ++ rtgt.1 ++ rft.1 ++ rproto.1 ++ rauth.1 ++ rdc.1 ++ rlabel.1,
      match rid.2, rsrc.2, rtgt.2, rft.2, rproto.2, rauth.2, rdc.2, rlabel.2 with
      | some i, some s, some t, some ft, some p, some a, some d, some l =>
        some { id := i, source := s, target := t, flow_type := ft, protocol := p
             , auth := a, data_class := d, label := l }
      | _, _, _, _, _, _, _, _ => none)
  | _ => ([errAt loc MSG_DICT], none)

def validateControl (loc : List Char) (v : JVal) : List (List Char) × Option ControlR :=
  match v with
  | .obj o =>
    let rid := vStr o loc ((r"id").data)
    let rscope := vStrListD o loc ((r"scope").data)
    let rct := vStr o loc ((r"control_type").data)
    (rid.1 ++ rscope.1 ++ rct.1,
      match rid.2, rscope.2, rct.2 with
      | some i, some s, some c => some { id := i, scope := s, control_type := c }
      | _, _, _ => none)
  | _ => ([errAt loc MSG_DICT], none)

/-- Validate the list stored under key `k` with the item validator `itemV`;
an absent key yields the empty default. -/
def vEntityList (itemV : List Char → JVal → List (List Char) × Option α)
    (o : List (List Char × JVal)) (k : List Char) :
    List (List Char) × Option (List α) :=
  match dictLookup o k with
  | none => ([], some [])
  | some (.list xs) =>
    let rs := xs.enum.map (fun ix => itemV (k ++ '.' :: natToStr ix.1 ++ '.' :: []) ix.2)
    (rs.flatMap Prod.fst,
      if rs.all (fun r => r.2.isSome) then some (rs.filterMap Prod.snd) else none)
  | some _ => ([errAt k MSG_LIST], none)

def ROOT_FIELDS : List (List Char) :=
  [ (r"title").data, (r"zones").data, (r"trust_boundaries").data, (r"groups").data
  , (r"nodes").data, (r"flows").data, (r"controls").data ]

/-- `validate_dsl` (`app/dsl.py`, lines 131-149): pydantic validation of the
raw payload.  Returns `(model, [])` on success, `(none, errors)` on failure;
only the root model forbids extra keys. -/
def validate_dsl (v : JVal) : Option ArchitectureDSL × List (List Char) :=
  match v with
  | .obj o =>
    let extraErrs := o.filterMap
      (fun kv => if kv.1 ∈ ROOT_FIELDS then none else some (errAt kv.1 MSG_EXTRA))
    let rtitle := vOptStr o [] ((r"title").data)
    let rzones := vEntityList validateZone o ((r"zones").data)
    let rtbs := vEntityList validateTb o ((r"trust_boundaries").data)
    let rgroups := vEntityList validateGroup o ((r"groups").data)
    let rnodes := vEntityList validateNode o ((r"nodes").data)
    let rflows := vEntityList validateFlow o ((r"flows").data)
    let rcontrols := vEntityList validateControl o ((r"controls").data)
    let errors := extraErrs ++ rtitle.1 ++ rzones.1 ++ rtbs.1 ++ rgroups.1 ++
      rnodes.1 ++ rflows.1 ++ rcontrols.1
    if errors.isEmpty then
      match rtitle.2, rzones.2, rtbs.2, rgroups.2, rnodes.2, rflows.2, rcontrols.2 with
      | some t, some z, some tb, some g, some n, some f, some c =>
        (some { title := t, zones := z, trust_boundaries := tb, groups := g
              , nodes := n, flows := f, controls := c }, [])
      | _, _, _, _, _, _, _ => (none, errors)
    else (none, errors)
  | _ => (none, [errAt [] MSG_DICT])

/-! ### Helpers for the claim theorems -/

theorem isEmpty_false_of_ne_nil {α} {l : List α} (h : l ≠ []) : l.isEmpty = false := by
  cases l with
  | nil => exact absurd rfl h
  | cons a t => rfl

/-- The nodes a prepared graph rejects: remapped nodes whose zone is missing
from the renamed zone-id set (`validate_and_prepare_dsl`, lines 189-193). -/
def invalidZoneNodes (dsl : Dsl) : List NodeR :=
  let rst := renameZones (sortByOrder dsl.zones)
  (remapNodes rst.map dsl.nodes).filter
    (fun n => decide (¬ n.zone ∈ rst.zones.map (fun z => z.id)))

theorem filterMap_invalid (nodes : List NodeR) (ids : List (List Char)) :
    nodes.filterMap (fun n => if n.zone ∈ ids then none else some (invalidZoneMsg n)) =
      (nodes.filter (fun n => decide (¬ n.zone ∈ ids))).map invalidZoneMsg := by
  induction nodes with
  | nil => rfl
  | cons a t ih =>
    by_cases h : a.zone ∈ ids <;> simp [h, ih]

/-- `_expand_dsl_to_density` applied to the emptied graph, as the empty-zones
path of `validate_and_prepare_dsl` does; a closed function of the minimums
only. -/
def expandedFromEmpty (mz mn mf : Nat) : Option Dsl :=
  expand_dsl_to_density { zones := [], nodes := [], flows := [], trust_boundaries := [] }
    [] mz mn mf

/-- C3: if the input has zones and, after zone-id remapping, some node's zone
id is absent from the final zone-id set, then `validate_and_prepare_dsl`
returns a null result with exactly one error message per offending node (all
offending nodes collected before returning), and `dsl_to_drawio` raises
instead of producing a document. -/
theorem claim_C3 (dsl : Dsl) (mz mn mf mh : Nat) (e : Bool)
    (hz : dsl.zones ≠ []) (hbad : invalidZoneNodes dsl ≠ []) :
    validate_and_prepare_dsl dsl mz mn mf mh e =
      some { result := none, errors := (invalidZoneNodes dsl).map invalidZoneMsg
           , warnings := [], expanded := false } ∧
    dsl_to_drawio dsl = none := by
  have hz' : (sortByOrder dsl.zones).isEmpty = false := by
    apply isEmpty_false_of_ne_nil
    intro hnil
    have : (sortByOrder dsl.zones).Perm dsl.zones := sortByOrder_perm dsl.zones
    rw [hnil] at this
    exact hz (this.symm.eq_nil)
  have hmain : ∀ (mz' mn' mf' mh' : Nat) (e' : Bool),
      validate_and_prepare_dsl dsl mz' mn' mf' mh' e' =
        some { result := none, errors := (invalidZoneNodes dsl).map invalidZoneMsg
             , warnings := [], expanded := false } := by
    intro mz' mn' mf' mh' e'
    have hne : ((invalidZoneNodes dsl).map invalidZoneMsg).isEmpty = false := by
      apply isEmpty_false_of_ne_nil
      simp only [ne_eq, List.map_eq_nil_iff]
      exact hbad
    simp only [validate_and_prepare_dsl, hz', Bool.false_eq_true, false_and, if_false,
      filterMap_invalid]
    simp only [invalidZoneNodes] at hne ⊢
    rw [if_pos hne]
  refine ⟨hmain mz mn mf mh e, ?_⟩
  unfold dsl_to_drawio
  rw [hmain MIN_ZONES MIN_NODES MIN_FLOWS MIN_NODES_HARD true]

def dC3w : Dsl :=
  { zones := [{ id := (r"internal").data, name := [], order := 0, color := [] }]
  , nodes := [{ id := (r"n0").data, label := none, zone := (r"nowhere").data
              , type := (r"app").data, tags := [] }]
  , flows := [], trust_boundaries := [] }

theorem claim_C3_witness :
    dC3w.zones ≠ [] ∧ invalidZoneNodes dC3w ≠ [] ∧
      (validate_and_prepare_dsl dC3w 5 25 20 1 true =
        some { result := none, errors := (invalidZoneNodes dC3w).map invalidZoneMsg
             , warnings := [], expanded := false } ∧
      dsl_to_drawio dC3w = none) :=
  ⟨by decide, by decide, claim_C3 dC3w 5 25 20 1 true (by decide) (by decide)⟩

/-- C5 (counterexample): a payload with an unknown field inside an individual
entity object (here a zone carrying `bogus`) is accepted by `validate_dsl`
with an empty error list — the entity models keep pydantic's default
`extra="ignore"`, only the root model forbids extras. -/
theorem claim_C5_counterexample :
    (validate_dsl (.obj
      [((r"zones").data, .list [.obj
        [ ((r"id").data, .str ((r"z0").data))
        , ((r"name").data, .str ((r"Z").data))
        , ((r"order").data, .int 0)
        , ((r"bogus").data, .int 1) ]])])).2 = [] ∧
    (validate_dsl (.obj
      [((r"zones").data, .list [.obj
        [ ((r"id").data, .str ((r"z0").data))
        , ((r"name").data, .str ((r"Z").data))
        , ((r"order").data, .int 0)
        , ((r"bogus").data, .int 1) ]])])).1 =
      some { title := none
           , zones := [{ id := (r"z0").data, name := (r"Z").data, order := 0
                       , color := (r"#dae8fc").data }]
           , trust_boundaries := [], groups := [], nodes := [], flows := []
           , controls := [] } := by
  constructor <;> rfl

/-- C5 (amended): a payload with a field not defined by the schema at the top
level of the graph is rejected by `validate_dsl` — null model, non-empty
errors; unknown fields inside entity objects are ignored, not rejected. -/
theorem claim_C5 (o : List (List Char × JVal)) (k : List Char) (x : JVal)
    (hk : (k, x) ∈ o) (hunk : k ∉ ROOT_FIELDS) :
    (validate_dsl (.obj o)).1 = none ∧ (validate_dsl (.obj o)).2 ≠ [] := by
  have hmem : errAt k MSG_EXTRA ∈ o.filterMap
      (fun kv => if kv.1 ∈ ROOT_FIELDS then none else some (errAt kv.1 MSG_EXTRA)) := by
    rw [List.mem_filterMap]
    exact ⟨(k, x), hk, by simp [hunk]⟩
  have hne : o.filterMap
      (fun kv => if kv.1 ∈ ROOT_FIELDS then none else some (errAt kv.1 MSG_EXTRA)) ≠ [] :=
    List.ne_nil_of_mem hmem
  have hsplit : ∀ {l1 l2 : List (List Char)}, l1 ++ l2 = [] → l1 = [] :=
    fun h => (List.append_eq_nil.mp h).1
  simp only [validate_dsl]
  constructor
  · rw [if_neg]
    intro habs
    exact hne (hsplit (hsplit (hsplit (hsplit (hsplit (hsplit (hsplit
      (List.isEmpty_iff.mp habs))))))))
  · rw [if_neg]
    · intro habs
      exact hne (hsplit (hsplit (hsplit (hsplit (hsplit (hsplit (hsplit habs)))))))
    · intro habs
      exact hne (hsplit (hsplit (hsplit (hsplit (hsplit (hsplit (hsplit
        (List.isEmpty_iff.mp habs))))))))

theorem claim_C5_witness :
    (((r"bogus").data, JVal.int 1) ∈
        [(((r"bogus").data : List Char), JVal.int 1)] ∧
      (r"bogus").data ∉ ROOT_FIELDS) ∧
    (validate_dsl (.obj [(((r"bogus").data : List Char), JVal.int 1)])).1 = none ∧
    (validate_dsl (.obj [(((r"bogus").data : List Char), JVal.int 1)])).2 ≠ [] :=
  ⟨⟨List.mem_singleton.mpr rfl, by decide⟩,
    claim_C5 [(((r"bogus").data : List Char), JVal.int 1)] ((r"bogus").data)
      (JVal.int 1) (List.mem_singleton.mpr rfl) (by decide)⟩

def dC9 : Dsl :=
  { zones := [{ id := (r"Internet").data, name := [], order := 0, color := [] }]
  , nodes := [{ id := (r"n0").data, label := none, zone := (r"Internet").data
              , type := (r"app").data, tags := [] }]
  , flows := [], trust_boundaries := [] }

/-- C9 (counterexample): `validate_and_prepare_dsl` mutates the caller's
graph — on an input whose zone id `"Internet"` canonicalizes to
`"internet"`, the node's `zone` entry in the caller's dict is rewritten in
place, so the input is structurally changed by the call. -/
theorem claim_C9_counterexample :
    input_after_prepare dC9 ≠ dC9 ∧
    (input_after_prepare dC9).nodes.map (fun n => n.zone) = [(r"internet").data] ∧
    dC9.nodes.map (fun n => n.zone) = [(r"Internet").data] :=
  ⟨by decide, rfl, rfl⟩

/-- C9 (amended): the call leaves the input's zones, flows and trust
boundaries unchanged and rewrites only node `zone` fields through the zone-id
rename map; whenever that map fixes every node's zone reference, the caller's
graph is left fully unchanged. -/
theorem claim_C9 (dsl : Dsl)
    (h : ∀ n ∈ dsl.nodes,
      remapZone (renameZones (sortByOrder dsl.zones)).map n.zone = n.zone) :
    input_after_prepare dsl = dsl ∧
    (input_after_prepare dsl).zones = dsl.zones ∧
    (input_after_prepare dsl).flows = dsl.flows ∧
    (input_after_prepare dsl).trust_boundaries = dsl.trust_boundaries := by
  have hmain : input_after_prepare dsl = dsl := by
    unfold input_after_prepare
    by_cases hz : (sortByOrder dsl.zones).isEmpty = true
    · simp [hz]
    · simp only [hz, Bool.false_eq_true, if_false]
      have hnodes : remapNodes (renameZones (sortByOrder dsl.zones)).map dsl.nodes =
          dsl.nodes := by
        unfold remapNodes
        rw [List.map_congr_left (fun n hn => ?_), List.map_id']
        rw [h n hn]
      rw [hnodes]
  exact ⟨hmain, by rw [hmain], by rw [hmain], by rw [hmain]⟩

def dC9w : Dsl :=
  { zones := [{ id := (r"internal").data, name := [], order := 0, color := [] }]
  , nodes := [{ id := (r"n0").data, label := none, zone := (r"internal").data
              , type := (r"app").data, tags := [] }]
  , flows := [], trust_boundaries := [] }

theorem claim_C9_witness :
    (∀ n ∈ dC9w.nodes,
      remapZone (renameZones (sortByOrder dC9w.zones)).map n.zone = n.zone) ∧
    input_after_prepare dC9w = dC9w :=
  ⟨by decide, (claim_C9 dC9w (by decide)).1⟩

/-- C10: with an empty (or missing) zones list and expansion enabled,
`validate_and_prepare_dsl` succeeds with no error and no warning, and its
result is a pure function of the minimums alone — every node and flow the
input supplied is discarded and replaced by the synthesized structure built
from an emptied graph. -/
theorem claim_C10 (dsl : Dsl) (h : dsl.zones = []) :
    validate_and_prepare_dsl dsl MIN_ZONES MIN_NODES MIN_FLOWS MIN_NODES_HARD true =
      some { result := some ((expandedFromEmpty MIN_ZONES MIN_NODES MIN_FLOWS).getD default)
           , errors := [], warnings := [], expanded := true } := by
  have hz : sortByOrder dsl.zones = [] := by rw [h]; rfl
  have he : expandedFromEmpty MIN_ZONES MIN_NODES MIN_FLOWS =
      some ((expandedFromEmpty MIN_ZONES MIN_NODES MIN_FLOWS).getD default) := by rfl
  simp only [validate_and_prepare_dsl, hz]
  simp only [List.isEmpty_nil, not_true, true_and, and_false, if_false, if_true]
  have : expand_dsl_to_density
      { dsl with zones := [], nodes := [], flows := [], trust_boundaries := [] }
      [] MIN_ZONES MIN_NODES MIN_FLOWS =
      expandedFromEmpty MIN_ZONES MIN_NODES MIN_FLOWS := rfl
  rw [this, he]
  rfl

def dC10 : Dsl :=
  { zones := []
  , nodes := [{ id := (r"kept").data, label := none, zone := (r"internal").data
              , type := (r"app").data, tags := [] }]
  , flows := [{ id := (r"f0").data, source := (r"kept").data, target := (r"kept").data
              , flow_type := (r"api").data, protocol := [], auth := [], data_class := []
              , label := none }]
  , trust_boundaries := [] }

theorem claim_C10_witness :
    dC10.zones = [] ∧
    validate_and_prepare_dsl dC10 MIN_ZONES MIN_NODES MIN_FLOWS MIN_NODES_HARD true =
      some { result := some ((expandedFromEmpty MIN_ZONES MIN_NODES MIN_FLOWS).getD default)
           , errors := [], warnings := [], expanded := true } :=
  ⟨rfl, claim_C10 dC10 rfl⟩

theorem placement_ok_all (g : Dsl) : placementAssertOk g = true := by
  unfold placementAssertOk
  rw [List.all_eq_true]
  intro z _
  rw [List.all_eq_true]
  intro i hi
  rw [List.mem_range] at hi
  simp only [Bool.and_eq_true, decide_eq_true_eq]
  have hcm : cols_max = 6 := rfl
  have hne : ((dictLookup (nodesInZone g.nodes) z.id).getD []).isEmpty = false := by
    cases hm : (dictLookup (nodesInZone g.nodes) z.id).getD [] with
    | nil => rw [hm] at hi; simp at hi
    | cons a t => rfl
  have hlen1 : 1 ≤ ((dictLookup (nodesInZone g.nodes) z.id).getD []).length := by
    cases hm : (dictLookup (nodesInZone g.nodes) z.id).getD [] with
    | nil => rw [hm] at hi; simp at hi
    | cons a t => simp
  have hcols : colsFor ((dictLookup (nodesInZone g.nodes) z.id).getD []) =
      min 6 ((dictLookup (nodesInZone g.nodes) z.id).getD []).length := by
    simp only [colsFor, hne, Bool.false_eq_true, if_false, hcm]
    omega
  constructor
  · -- x + NODE_W ≤ zone width
    have hpos : 0 < colsFor ((dictLookup (nodesInZone g.nodes) z.id).getD []) := by
      rw [hcols]; omega
    have hlt := Nat.mod_lt i hpos
    rw [hcols] at hlt
    simp only [nodeX, NODE_W, GAP_X, PADDING, CANVAS_WIDTH, hcols]
    omega
  · -- y + NODE_H ≤ zone content height
    simp only [nodeY, zoneHeight, rowsFor, NODE_H, GAP_Y, PADDING, ZONE_HEADER_HEIGHT,
      hcols, hcm]
    have hn0 : ¬ ((dictLookup (nodesInZone g.nodes) z.id).getD []).length = 0 := by omega
    simp only [hn0, if_false]
    by_cases h6 : ((dictLookup (nodesInZone g.nodes) z.id).getD []).length ≤ 6
    · have hc : min 6 ((dictLookup (nodesInZone g.nodes) z.id).getD []).length =
          ((dictLookup (nodesInZone g.nodes) z.id).getD []).length := by omega
      rw [hc, Nat.div_eq_of_lt hi]
      omega
    · have hc : min 6 ((dictLookup (nodesInZone g.nodes) z.id).getD []).length = 6 := by
        omega
      rw [hc]
      omega

/-- C6: for every graph accepted by validation, every node's computed grid
position lies inside its zone's content box (`x, y ≥ 0` hold by construction
over `Nat`, matching the non-negative Python integers; and
`x + NODE_W ≤ zone_content_w`, `y + NODE_H ≤ zone_content_h`): the two
defensive assertions of the node-placement loop never fire. -/
theorem claim_C6 (dsl : Dsl) (mz mn mf mh : Nat) (e : Bool) (r : PrepResult) (g : Dsl)
    (hr : validate_and_prepare_dsl dsl mz mn mf mh e = some r)
    (hg : r.result = some g) :
    placementAssertOk g = true :=
  placement_ok_all g

def dC6w : Dsl :=
  { zones := [{ id := (r"internal").data, name := [], order := 0, color := [] }]
  , nodes := [{ id := (r"n0").data, label := none, zone := (r"internal").data
              , type := (r"app").data, tags := [] }]
  , flows := [], trust_boundaries := [] }

theorem claim_C6_witness :
    validate_and_prepare_dsl dC6w 1 3 2 1 true =
      some ((validate_and_prepare_dsl dC6w 1 3 2 1 true).getD default) ∧
    ((validate_and_prepare_dsl dC6w 1 3 2 1 true).getD default).result =
      some (((validate_and_prepare_dsl dC6w 1 3 2 1 true).getD default).result.getD default) ∧
    placementAssertOk
      (((validate_and_prepare_dsl dC6w 1 3 2 1 true).getD default).result.getD default) =
      true :=
  ⟨rfl, rfl, claim_C6 dC6w 1 3 2 1 true _ _ rfl rfl⟩

/-! ### C4: zone-id uniqueness pass -/

theorem dictLookup_insert_self (m : List (List Char × α)) (k : List Char) (v : α) :
    dictLookup (dictInsert m k v) k = some v := by
  by_cases hm : (m.any fun p => decide (p.1 = k)) = true
  · unfold dictInsert
    rw [if_pos hm]
    induction m with
    | nil => simp at hm
    | cons p t ih =>
      by_cases hp : p.1 = k
      · simp [dictLookup, List.find?_cons, hp]
      · have hm2 : (t.any fun p => decide (p.1 = k)) = true := by
          simp only [List.any_cons, Bool.or_eq_true, decide_eq_true_eq] at hm
          rcases hm with h | h
          · exact absurd h hp
          · exact h
        have hih := ih hm2
        simp only [List.map_cons, if_neg hp]
        simp only [dictLookup, List.find?_cons] at hih ⊢
        rw [show (decide (p.1 = k)) = false by simp [hp]]
        exact hih
  · unfold dictInsert
    rw [if_neg hm]
    have h1 : m.find? (fun p => decide (p.1 = k)) = none := by
      rw [List.find?_eq_none]
      intro p hp
      simp only [decide_eq_true_eq]
      intro heq
      exact hm (by simp only [List.any_eq_true, decide_eq_true_eq]; exact ⟨p, hp, heq⟩)
    simp [dictLookup, List.find?_append, h1, List.find?_cons]

theorem dictLookup_insert_ne (m : List (List Char × α)) {k k' : List Char} (v : α)
    (h : k' ≠ k) : dictLookup (dictInsert m k v) k' = dictLookup m k' := by
  by_cases hm : (m.any fun p => decide (p.1 = k)) = true
  · unfold dictInsert
    rw [if_pos hm]
    induction m with
    | nil => rfl
    | cons p t ih =>
      by_cases hp : p.1 = k
      · have h1 : (decide (k = k')) = false := by simp [Ne.symm h]
        have h2 : (decide (p.1 = k')) = false := by
          rw [hp]; simp [Ne.symm h]
        simp only [List.map_cons, if_pos hp, dictLookup, List.find?_cons, h1, h2]
        by_cases hm2 : (t.any fun p => decide (p.1 = k)) = true
        · simpa only [dictLookup] using ih hm2
        · have h3 : List.find? (fun p => decide (p.1 = k'))
              (List.map (fun p => if p.1 = k then (k, v) else p) t) =
              List.find? (fun p => decide (p.1 = k')) t := by
            have hmap : List.map (fun p => if p.1 = k then (k, v) else p) t = t := by
              conv_rhs => rw [← List.map_id' t]
              apply List.map_congr_left
              intro q hq
              have hq1 : ¬ q.1 = k := by
                intro habs
                apply hm2
                simp only [List.any_eq_true, decide_eq_true_eq]
                exact ⟨q, hq, habs⟩
              simp [hq1]
            rw [hmap]
          rw [h3]
      · simp only [List.map_cons, if_neg hp, dictLookup, List.find?_cons]
        cases hd : decide (p.1 = k')
        · have hm2 : (t.any fun p => decide (p.1 = k)) = true := by
            simp only [List.any_cons, Bool.or_eq_true, decide_eq_true_eq] at hm
            rcases hm with hx | hx
            · exact absurd hx hp
            · exact hx
          simpa only [dictLookup] using ih hm2
        · rfl
  · unfold dictInsert
    rw [if_neg hm]
    have h1 : List.find? (fun p => decide (p.1 = k')) [(k, v)] = none := by
      simp [List.find?_cons, Ne.symm h]
    simp [dictLookup, List.find?_append, h1]

/-- The ids the uniqueness pass produces, as a pure function of the canonical
ids: each id is its canonical form suffixed with the number of earlier
occurrences of the same canonical form (`suffixed c 0 = c`). -/
def suffixedFrom (cp : List (List Char)) : List (List Char) → List (List Char)
  | [] => []
  | c :: rest => suffixed c (cp.count c) :: suffixedFrom (cp ++ [c]) rest

theorem renameZones_invariant :
    ∀ (zs : List ZoneR) (st : RenameState) (cp : List (List Char)),
      (∀ c, dictLookup st.seen c =
        if cp.count c = 0 then none else some (cp.count c - 1)) →
      (zs.foldl renameStep st).zones.map (fun z => z.id) =
        st.zones.map (fun z => z.id) ++
          suffixedFrom cp (zs.map (fun z => canonical_zone_id z.id)) := by
  intro zs
  induction zs with
  | nil => intro st cp _; simp [suffixedFrom]
  | cons z rest ih =>
    intro st cp hseen
    simp only [List.foldl_cons, List.map_cons, suffixedFrom]
    have h1 : cp.count (canonical_zone_id z.id) - 1 + 1 =
        cp.count (canonical_zone_id z.id) ∨ cp.count (canonical_zone_id z.id) = 0 := by
      omega
    have hstep : renameStep st z =
        { seen := dictInsert st.seen (canonical_zone_id z.id)
            ((cp ++ [canonical_zone_id z.id]).count (canonical_zone_id z.id) - 1)
        , map := dictInsert st.map z.id
            (suffixed (canonical_zone_id z.id) (cp.count (canonical_zone_id z.id)))
        , zones := st.zones ++ [{ z with id := suffixed (canonical_zone_id z.id) (cp.count (canonical_zone_id z.id)) }] } := by
      simp only [renameStep]
      have hv := hseen (canonical_zone_id z.id)
      by_cases hc : cp.count (canonical_zone_id z.id) = 0
      · rw [if_pos hc] at hv
        rw [hv]
        have hcnt : (cp ++ [canonical_zone_id z.id]).count (canonical_zone_id z.id) - 1 = 0 := by
          simp [List.count_append, hc]
        rw [hcnt, hc]
        rfl
      · rw [if_neg hc] at hv
        rw [hv]
        have h2 : (cp ++ [canonical_zone_id z.id]).count (canonical_zone_id z.id) - 1 =
            cp.count (canonical_zone_id z.id) := by
          simp [List.count_append]
        have h3 : cp.count (canonical_zone_id z.id) - 1 + 1 =
            cp.count (canonical_zone_id z.id) := by omega
        simp [h2, h3]
    rw [hstep]
    rw [ih _ (cp ++ [canonical_zone_id z.id]) ?_]
    · simp
    · intro c
      by_cases hc : c = canonical_zone_id z.id
      · rw [hc, dictLookup_insert_self]
        have hcnt : (cp ++ [canonical_zone_id z.id]).count (canonical_zone_id z.id) =
            cp.count (canonical_zone_id z.id) + 1 := by
          simp [List.count_append]
        rw [hcnt]
        simp
      · rw [dictLookup_insert_ne _ _ hc, hseen c]
        have hcnt : (cp ++ [canonical_zone_id z.id]).count c = cp.count c := by
          simp only [List.count_append]
          have : c ≠ canonical_zone_id z.id := hc
          simp [List.count_singleton, this]
        rw [hcnt]

theorem renameZones_ids (zs : List ZoneR) :
    (renameZones zs).zones.map (fun z => z.id) =
      suffixedFrom [] (zs.map (fun z => canonical_zone_id z.id)) := by
  unfold renameZones
  rw [renameZones_invariant zs { seen := [], map := [], zones := [] } [] (fun c => rfl)]
  rfl

theorem suffixed_inj {c c' : List Char} {k1 k2 : Nat}
    (hcc : c = c' ∨ (¬ c <+: c' ∧ ¬ c' <+: c))
    (h : suffixed c k1 = suffixed c' k2) : c = c' ∧ k1 = k2 := by
  unfold suffixed at h
  by_cases h1 : k1 = 0 <;> by_cases h2 : k2 = 0
  · rw [if_pos h1, if_pos h2] at h
    exact ⟨h, h1.trans h2.symm⟩
  · rw [if_pos h1, if_neg h2] at h
    exfalso
    rcases hcc with hcc | hcc
    · rw [hcc] at h
      have hl := congrArg List.length h
      simp only [List.length_append, List.length_cons] at hl
      omega
    · exact hcc.2 ⟨'_' :: natToStr k2, h.symm⟩
  · rw [if_neg h1, if_pos h2] at h
    exfalso
    rcases hcc with hcc | hcc
    · rw [hcc] at h
      have hl := congrArg List.length h
      simp only [List.length_append, List.length_cons] at hl
      omega
    · exact hcc.1 ⟨'_' :: natToStr k1, h⟩
  · rw [if_neg h1, if_neg h2] at h
    rcases hcc with hcc | hcc
    · subst hcc
      have hD := List.append_cancel_left h
      rw [List.cons.injEq] at hD
      exact ⟨rfl, natToStr_injective hD.2⟩
    · exfalso
      have hp1 : c <+: c' ++ '_' :: natToStr k2 := ⟨'_' :: natToStr k1, h⟩
      have hp2 : c' <+: c' ++ '_' :: natToStr k2 := ⟨'_' :: natToStr k2, rfl⟩
      rcases List.prefix_or_prefix_of_prefix hp1 hp2 with hp | hp
      · exact hcc.1 hp
      · exact hcc.2 hp

theorem mem_suffixedFrom :
    ∀ (cs cp : List (List Char)) (x : List Char), x ∈ suffixedFrom cp cs →
      ∃ c k, c ∈ cs ∧ x = suffixed c k ∧ cp.count c ≤ k := by
  intro cs
  induction cs with
  | nil => intro cp x hx; simp [suffixedFrom] at hx
  | cons c rest ih =>
    intro cp x hx
    simp only [suffixedFrom, List.mem_cons] at hx
    rcases hx with hx | hx
    · exact ⟨c, cp.count c, List.mem_cons_self c rest, hx, le_refl _⟩
    · obtain ⟨c', k, hc', heq, hle⟩ := ih (cp ++ [c]) x hx
      refine ⟨c', k, List.mem_cons_of_mem _ hc', heq, le_trans ?_ hle⟩
      simp only [List.count_append]
      exact Nat.le_add_right _ _

theorem suffixedFrom_nodup :
    ∀ (cs cp al : List (List Char)),
      (∀ c, c ∈ cs → c ∈ al) →
      (∀ c1, c1 ∈ al → ∀ c2, c2 ∈ al → c1 ≠ c2 → ¬ c1 <+: c2) →
      (suffixedFrom cp cs).Nodup := by
  intro cs
  induction cs with
  | nil => intro cp al _ _; exact List.nodup_nil
  | cons c rest ih =>
    intro cp al hsub hpre
    simp only [suffixedFrom]
    rw [List.nodup_cons]
    refine ⟨?_, ih (cp ++ [c]) al (fun d hd => hsub d (List.mem_cons_of_mem _ hd)) hpre⟩
    intro hmem
    obtain ⟨c', k, hc', heq, hle⟩ := mem_suffixedFrom rest (cp ++ [c]) _ hmem
    have hcc : c = c' ∨ (¬ c <+: c' ∧ ¬ c' <+: c) := by
      by_cases he : c = c'
      · exact Or.inl he
      · exact Or.inr ⟨hpre c (hsub c (List.mem_cons_self c rest)) c'
            (hsub c' (List.mem_cons_of_mem _ hc')) he,
          hpre c' (hsub c' (List.mem_cons_of_mem _ hc')) c
            (hsub c (List.mem_cons_self c rest)) (Ne.symm he)⟩
    obtain ⟨hceq, hkeq⟩ := suffixed_inj hcc heq
    rw [← hceq] at hle
    rw [← hkeq] at hle
    simp only [List.count_append, List.count_cons_self, List.count_nil] at hle
    omega

def dC4 : Dsl :=
  { zones := [ { id := (r"internet").data, name := [], order := 0, color := [] }
             , { id := (r"internet_1").data, name := [], order := 1, color := [] }
             , { id := (r"external").data, name := [], order := 2, color := [] } ]
  , nodes := [{ id := (r"n0").data, label := none, zone := (r"internet").data
              , type := (r"app").data, tags := [] }]
  , flows := [], trust_boundaries := [] }

/-- C4 (counterexample): on an input with pairwise-distinct zone ids
`internet`, `internet_1`, `external` (in that order), the uniqueness pass
suffixes the alias `external` (canonical id `internet`) to `internet_1`,
which collides with the untouched literal zone id `internet_1`; the call is
accepted with no errors, yet the returned graph's zone ids are not pairwise
distinct. -/
theorem claim_C4_counterexample :
    (dC4.zones.map (fun z => z.id)).Nodup ∧
    ((validate_and_prepare_dsl dC4 MIN_ZONES MIN_NODES MIN_FLOWS MIN_NODES_HARD
        true).getD default).errors = [] ∧
    ((validate_and_prepare_dsl dC4 MIN_ZONES MIN_NODES MIN_FLOWS MIN_NODES_HARD
        true).getD default).result.isSome = true ∧
    ¬ (((((validate_and_prepare_dsl dC4 MIN_ZONES MIN_NODES MIN_FLOWS MIN_NODES_HARD
        true).getD default).result.getD default).zones.map (fun z => z.id)).Nodup) := by
  decide

/-- C4 (amended): for every graph accepted by `validate_and_prepare_dsl`
without density expansion, the returned zone ids are exactly the canonical
ids of the (order-sorted) input zones with per-class occurrence suffixes
(first occurrence bare, repeats `_1`, `_2`, ...); they are pairwise distinct
provided no canonical id is a proper prefix of another distinct canonical id
— without that proviso a suffixed id `c_k` can collide with a zone whose
canonical id is literally `c_k`. -/
theorem claim_C4 (dsl : Dsl) (mz mn mf mh : Nat) (p : PrepResult) (g : Dsl)
    (h : validate_and_prepare_dsl dsl mz mn mf mh false = some p)
    (hg : p.result = some g)
    (hpre : ∀ c1, c1 ∈ (sortByOrder dsl.zones).map (fun z => canonical_zone_id z.id) →
      ∀ c2, c2 ∈ (sortByOrder dsl.zones).map (fun z => canonical_zone_id z.id) →
        c1 ≠ c2 → ¬ c1 <+: c2) :
    g.zones.map (fun z => z.id) =
      suffixedFrom [] ((sortByOrder dsl.zones).map (fun z => canonical_zone_id z.id)) ∧
    (g.zones.map (fun z => z.id)).Nodup := by
  have hzones : g.zones = (renameZones (sortByOrder dsl.zones)).zones := by
    simp only [validate_and_prepare_dsl] at h
    split at h
    · injection h with h
      subst h
      simp at hg
    · split at h
      · next hcond => simp at hcond
      · split at h
        · injection h with h
          subst h
          simp at hg
        · split at h
          · injection h with h
            subst h
            simp at hg
          · split at h
            · next hcond => simp at hcond
            · injection h with h
              subst h
              have hg2 : some ({ dsl with
                  zones := (renameZones (sortByOrder dsl.zones)).zones
                , nodes := remapNodes (renameZones (sortByOrder dsl.zones)).map dsl.nodes
                , flows := dsl.flows
                , trust_boundaries := dsl.trust_boundaries } : Dsl) = some g := hg
              injection hg2 with hg2
              rw [← hg2]
  refine ⟨?_, ?_⟩
  · rw [hzones]
    exact renameZones_ids (sortByOrder dsl.zones)
  · rw [hzones, renameZones_ids]
    exact suffixedFrom_nodup _ [] _ (fun d hd => hd) hpre

def dC4w : Dsl :=
  { zones := [ { id := (r"Internet").data, name := [], order := 0, color := [] }
             , { id := (r"external").data, name := [], order := 1, color := [] } ]
  , nodes := [{ id := (r"n0").data, label := none, zone := (r"Internet").data
              , type := (r"app").data, tags := [] }]
  , flows := [], trust_boundaries := [] }

def pC4w : PrepResult := (validate_and_prepare_dsl dC4w 1 1 0 1 false).getD default

def gC4w : Dsl := pC4w.result.getD default

theorem claim_C4_witness :
    gC4w.zones.map (fun z => z.id) =
      suffixedFrom [] ((sortByOrder dC4w.zones).map (fun z => canonical_zone_id z.id)) ∧
    (gC4w.zones.map (fun z => z.id)).Nodup :=
  claim_C4 dC4w 1 1 0 1 pC4w gC4w (by decide) (by decide) (by decide)

theorem nodup_subset_length_le {l k : List (List Char)} (hl : l.Nodup)
    (hsub : ∀ x, x ∈ l → x ∈ k) : l.length ≤ k.length :=
  (hl.subperm (fun {x} hx => hsub x hx)).length_le

theorem dictKeys_foldl_insert (key : α → List Char) :
    ∀ (l : List α) (m : List (List Char × α)),
      (dictKeys m ++ l.map key).Nodup →
      dictKeys (l.foldl (fun m x => dictInsert m (key x) x) m) =
        dictKeys m ++ l.map key := by
  intro l
  induction l with
  | nil => intro m _; simp
  | cons x t ih =>
    intro m hnd
    have hx_notin : key x ∉ dictKeys m := by
      intro hmem
      exact (List.disjoint_of_nodup_append hnd) hmem (List.mem_cons_self _ _)
    have hany : ¬ (m.any fun p => decide (p.1 = key x)) = true := by
      simp only [List.any_eq_true, decide_eq_true_eq]
      rintro ⟨p, hp, hpk⟩
      exact hx_notin (hpk ▸ List.mem_map_of_mem Prod.fst hp)
    have hkeys : dictKeys (dictInsert m (key x) x) = dictKeys m ++ [key x] :=
      dictKeys_insert_of_not_mem hany
    have hre : dictKeys m ++ (x :: t).map key =
        dictKeys (dictInsert m (key x) x) ++ t.map key := by
      rw [hkeys, List.append_assoc]
      rfl
    simp only [List.foldl_cons]
    rw [ih (dictInsert m (key x) x) (by rw [← hre]; exact hnd), ← hre]

theorem buildDict_keys {key : α → List Char} {l : List α}
    (h : (l.map key).Nodup) : dictKeys (buildDict key l) = l.map key := by
  unfold buildDict
  rw [dictKeys_foldl_insert key l [] (by simpa using h)]
  rfl

theorem zoneLoop_ge (mz : Nat) :
    ∀ (fuel : Nat) (zones : List ZoneR) (tbs : List TBR) (nz : Nat),
      min mz (zones.length + fuel) ≤ (expandZonesLoop mz fuel zones tbs nz).1.length := by
  intro fuel
  induction fuel with
  | zero =>
    intro zones tbs nz
    show min mz (zones.length + 0) ≤ zones.length
    omega
  | succ fuel ih =>
    intro zones tbs nz
    by_cases h : zones.length < mz
    · show min mz (zones.length + (fuel + 1)) ≤
        (expandZonesLoop mz (fuel + 1) zones tbs nz).1.length
      simp only [expandZonesLoop]
      rw [if_pos h]
      refine le_trans ?_ (ih _ _ _)
      simp only [List.length_append, List.length_cons, List.length_nil]
      omega
    · simp only [expandZonesLoop]
      rw [if_neg h]
      show min mz (zones.length + (fuel + 1)) ≤ zones.length
      omega

theorem flowLoop_ge (mf : Nat) (nl : List (List Char)) (h2 : 2 ≤ nl.length) :
    ∀ (fuel : Nat) (flows : List FlowR) (nextF : Nat),
      min mf (flows.length + fuel) ≤ (expandFlowsLoop mf nl fuel flows nextF).length := by
  intro fuel
  induction fuel with
  | zero =>
    intro flows nextF
    show min mf (flows.length + 0) ≤ flows.length
    omega
  | succ fuel ih =>
    intro flows nextF
    by_cases h : flows.length < mf
    · show min mf (flows.length + (fuel + 1)) ≤
        (expandFlowsLoop mf nl (fuel + 1) flows nextF).length
      simp only [expandFlowsLoop]
      rw [if_pos ⟨h, h2⟩]
      refine le_trans ?_ (ih _ _)
      simp only [List.length_append, List.length_cons, List.length_nil]
      omega
    · simp only [expandFlowsLoop]
      rw [if_neg (fun hc => h hc.1)]
      omega

theorem nodeLoop_spec (mn : Nat) (zo : List ZoneR) (hzo : zo ≠ []) :
    ∀ (fuel : Nat) (nodes : List NodeR) (nb : List (List Char × NodeR)) (nextN : Nat),
      ∃ res, expandNodesLoop mn zo fuel nodes nb nextN = some res ∧
        min mn (nodes.length + fuel) ≤ res.1.length ∧
        (∀ x, x ∈ dictKeys nb → x ∈ dictKeys res.2) ∧
        (∀ j, nextN ≤ j → j < nextN + (res.1.length - nodes.length) →
          (r"node_").data ++ natToStr j ∈ dictKeys res.2) ∧
        nodes.length ≤ res.1.length := by
  intro fuel
  induction fuel with
  | zero =>
    intro nodes nb nextN
    refine ⟨(nodes, nb), rfl, ?_, fun x hx => hx, ?_, le_refl _⟩
    · show min mn (nodes.length + 0) ≤ nodes.length
      omega
    · intro j hj1 hj2
      exact absurd hj2 (by show ¬ j < nextN + (nodes.length - nodes.length); omega)
  | succ fuel ih =>
    intro nodes nb nextN
    by_cases h : nodes.length < mn
    · have hlt : nextN % zo.length < zo.length :=
        Nat.mod_lt _ (List.length_pos.mpr hzo)
      cases hget : zo.get? (nextN % zo.length) with
      | none =>
        exact absurd (List.get?_eq_none.mp hget) (by omega)
      | some z =>
        obtain ⟨res, hres, h1, h2, h3, h4⟩ := ih (nodes ++ [mkNode nextN z.id])
          (dictInsert nb (mkNode nextN z.id).id (mkNode nextN z.id)) (nextN + 1)
        refine ⟨res, ?_, ?_, ?_, ?_, ?_⟩
        · simp only [expandNodesLoop]
          rw [if_pos h, hget]
          exact hres
        · refine le_trans ?_ h1
          simp only [List.length_append, List.length_cons, List.length_nil]
          omega
        · intro x hx
          exact h2 x (mem_dictKeys_insert hx)
        · intro j hj1 hj2
          simp only [List.length_append, List.length_cons, List.length_nil] at h3 h4
          rcases Nat.eq_or_lt_of_le hj1 with he | hlt2
          · rw [← he]
            exact h2 _ (mem_dictKeys_insert_self nb _ _)
          · exact h3 j hlt2 (by omega)
        · refine le_trans ?_ h4
          simp only [List.length_append, List.length_cons, List.length_nil]
          omega
    · refine ⟨(nodes, nb), ?_, ?_, fun x hx => hx, ?_, le_refl _⟩
      · simp only [expandNodesLoop]
        rw [if_neg h]
      · show min mn (nodes.length + (fuel + 1)) ≤ nodes.length
        omega
      · intro j hj1 hj2
        exact absurd hj2 (by show ¬ j < nextN + (nodes.length - nodes.length); omega)

def mintedIds (nextN k : Nat) : List (List Char) :=
  (List.range k).map (fun i => (r"node_").data ++ natToStr (nextN + i))

theorem mintedIds_nodup (nextN k : Nat) : (mintedIds nextN k).Nodup := by
  refine (List.nodup_range k).map ?_
  intro a b hab
  have h1 := List.append_cancel_left hab
  have h2 := natToStr_injective h1
  omega

theorem expand_density_counts (d : Dsl) (nb : List (List Char × NodeR))
    (mz mn mf : Nat) (hmz : 1 ≤ mz) (hmn : 3 ≤ mn)
    (hlen : (dictKeys nb).length = d.nodes.length)
    (hnod : (dictKeys nb).Nodup) :
    ∃ g, expand_dsl_to_density d nb mz mn mf = some g ∧
      mz ≤ g.zones.length ∧ mn ≤ g.nodes.length ∧ mf ≤ g.flows.length := by
  have hz : mz ≤
      (expandZonesLoop mz mz d.zones d.trust_boundaries d.zones.length).1.length := by
    have := zoneLoop_ge mz mz d.zones d.trust_boundaries d.zones.length
    omega
  have hzo : sortByOrder
      (expandZonesLoop mz mz d.zones d.trust_boundaries d.zones.length).1 ≠ [] := by
    intro habs
    have hp := sortByOrder_perm
      (expandZonesLoop mz mz d.zones d.trust_boundaries d.zones.length).1
    rw [habs] at hp
    have := hp.length_eq
    simp only [List.length_nil] at this
    omega
  obtain ⟨res, hres, h1, h2, h3, h4⟩ := nodeLoop_spec mn _ hzo mn d.nodes nb d.nodes.length
  have hn : mn ≤ res.1.length := by omega
  have hL : (dictKeys nb).length ≤ (dictKeys res.2).length :=
    nodup_subset_length_le hnod h2
  have hM : res.1.length - d.nodes.length ≤ (dictKeys res.2).length := by
    have hsub : ∀ x, x ∈ mintedIds d.nodes.length (res.1.length - d.nodes.length) →
        x ∈ dictKeys res.2 := by
      intro x hx
      simp only [mintedIds, List.mem_map, List.mem_range] at hx
      obtain ⟨i, hi, hxeq⟩ := hx
      rw [← hxeq]
      exact h3 (d.nodes.length + i) (by omega) (by omega)
    have := nodup_subset_length_le (mintedIds_nodup d.nodes.length
      (res.1.length - d.nodes.length)) hsub
    simp only [mintedIds, List.length_map, List.length_range] at this
    exact this
  have h2keys : 2 ≤ (dictKeys res.2).length := by omega
  have hf : mf ≤ (expandFlowsLoop mf (dictKeys res.2) mf d.flows d.flows.length).length := by
    have := flowLoop_ge mf (dictKeys res.2) h2keys mf d.flows d.flows.length
    omega
  refine ⟨{ d with
      zones := (expandZonesLoop mz mz d.zones d.trust_boundaries d.zones.length).1
    , nodes := res.1
    , flows := expandFlowsLoop mf (dictKeys res.2) mf d.flows d.flows.length
    , trust_boundaries := (expandZonesLoop mz mz d.zones d.trust_boundaries d.zones.length).2 },
    ?_, hz, hn, hf⟩
  simp only [expand_dsl_to_density]
  rw [hres]

theorem remapNodes_ids (m : List (List Char × List Char)) (ns : List NodeR) :
    (remapNodes m ns).map (fun n => n.id) = ns.map (fun n => n.id) := by
  unfold remapNodes
  rw [List.map_map]
  rfl

def nodeC2 : NodeR :=
  { id := (r"a").data, label := none, zone := (r"internal").data
  , type := (r"app").data, tags := [] }

def dC2 : Dsl :=
  { zones := [{ id := (r"internal").data, name := [], order := 0, color := [] }]
  , nodes := [nodeC2, nodeC2]
  , flows := [], trust_boundaries := [] }

/-- C2 (counterexample): two input nodes share the id `a`, so the node
dictionary built at line 223 has a single key; the flow-adding loop requires
at least two node-dictionary keys and never runs, and the call returns a
graph with no errors whose flow count (0) is below `min_flows` (1). -/
theorem claim_C2_counterexample :
    ((validate_and_prepare_dsl dC2 1 2 1 1 true).getD default).errors = [] ∧
    ((validate_and_prepare_dsl dC2 1 2 1 1 true).getD default).result.isSome = true ∧
    ((((validate_and_prepare_dsl dC2 1 2 1 1 true).getD default).result.getD
        default).flows.length < 1) := by
  decide

/-- C2 (amended): if the input node ids are pairwise distinct, `min_zones ≥ 1`
and `min_nodes ≥ 3`, then every graph returned by `validate_and_prepare_dsl`
with `expand_to_meet_density=True` and an empty error list has at least
`min_zones` zones, `min_nodes` nodes and `min_flows` flows; without those
provisos duplicate node ids can starve the flow loop (the node dictionary
deduplicates by id) and leave the flow count below `min_flows`. -/
theorem claim_C2 (dsl : Dsl) (mz mn mf mh : Nat) (p : PrepResult) (g : Dsl)
    (hmz : 1 ≤ mz) (hmn : 3 ≤ mn)
    (hnodup : (dsl.nodes.map (fun n => n.id)).Nodup)
    (h : validate_and_prepare_dsl dsl mz mn mf mh true = some p)
    (hg : p.result = some g) :
    mz ≤ g.zones.length ∧ mn ≤ g.nodes.length ∧ mf ≤ g.flows.length := by
  simp only [validate_and_prepare_dsl] at h
  split at h
  · next hcond => simp at hcond
  · split at h
    · obtain ⟨g', hg', hz, hn, hf⟩ := expand_density_counts
        { dsl with zones := [], nodes := [], flows := [], trust_boundaries := [] }
        [] mz mn mf hmz hmn rfl List.nodup_nil
      rw [hg'] at h
      injection h with h
      subst h
      have hg2 : some g' = some g := hg
      injection hg2 with hg2
      subst hg2
      exact ⟨hz, hn, hf⟩
    · split at h
      · injection h with h
        subst h
        simp at hg
      · split at h
        · injection h with h
          subst h
          simp at hg
        · split at h
          · have hids : ((remapNodes (renameZones (sortByOrder dsl.zones)).map
                dsl.nodes).map (fun n => n.id)).Nodup := by
              rw [remapNodes_ids]
              exact hnodup
            have hkeys := buildDict_keys hids
            obtain ⟨g', hg', hz, hn, hf⟩ := expand_density_counts
              { dsl with zones := (renameZones (sortByOrder dsl.zones)).zones
                       , nodes := remapNodes (renameZones (sortByOrder dsl.zones)).map dsl.nodes
                       , flows := dsl.flows
                       , trust_boundaries := dsl.trust_boundaries }
              (buildDict (fun n => n.id)
                (remapNodes (renameZones (sortByOrder dsl.zones)).map dsl.nodes))
              mz mn mf hmz hmn (by rw [hkeys]; simp) (by rw [hkeys]; exact hids)
            rw [hg'] at h
            injection h with h
            subst h
            have hg2 : some g' = some g := hg
            injection hg2 with hg2
            subst hg2
            exact ⟨hz, hn, hf⟩
          · next hcond =>
            injection h with h
            subst h
            have hg2 : some ({ dsl with
                zones := (renameZones (sortByOrder dsl.zones)).zones
              , nodes := remapNodes (renameZones (sortByOrder dsl.zones)).map dsl.nodes
              , flows := dsl.flows
              , trust_boundaries := dsl.trust_boundaries } : Dsl) = some g := hg
            injection hg2 with hg2
            rw [← hg2]
            have hc2 : ¬ ((renameZones (sortByOrder dsl.zones)).zones.length < mz ∨
                (remapNodes (renameZones (sortByOrder dsl.zones)).map dsl.nodes).length < mn ∨
                dsl.flows.length < mf) := fun hd => hcond ⟨trivial, hd⟩
            push_neg at hc2
            exact ⟨hc2.1, hc2.2.1, hc2.2.2⟩

def dC2w : Dsl :=
  { zones := [{ id := (r"internal").data, name := [], order := 0, color := [] }]
  , nodes := [{ id := (r"a").data, label := none, zone := (r"internal").data
              , type := (r"app").data, tags := [] }]
  , flows := [], trust_boundaries := [] }

def pC2w : PrepResult := (validate_and_prepare_dsl dC2w 1 3 1 1 true).getD default

def gC2w : Dsl := pC2w.result.getD default

theorem claim_C2_witness :
    1 ≤ gC2w.zones.length ∧ 3 ≤ gC2w.nodes.length ∧ 1 ≤ gC2w.flows.length :=
  claim_C2 dC2w 1 3 1 1 pC2w gC2w (by decide) (by decide) (by decide)
    (by decide) (by decide)

theorem zoneLoop_shape (mz : Nat) :
    ∀ (fuel : Nat) (zones : List ZoneR) (tbs : List TBR) (nz : Nat),
      ∃ nzs, (expandZonesLoop mz fuel zones tbs nz).1 = zones ++ nzs ∧
        ∀ z, z ∈ nzs → ∃ j, nz ≤ j ∧ z.id = (r"zone_").data ++ natToStr j := by
  intro fuel
  induction fuel with
  | zero =>
    intro zones tbs nz
    exact ⟨[], by simp [expandZonesLoop], fun z hz => absurd hz (List.not_mem_nil z)⟩
  | succ fuel ih =>
    intro zones tbs nz
    by_cases h : zones.length < mz
    · obtain ⟨nzs, heq, hprop⟩ := ih (zones ++ [mkZone nz])
        (if 2 ≤ (zones ++ [mkZone nz]).length then
          tbs ++ [mkTb nz tbs.length ((zones.getLast?.map (fun w => w.id)).getD [])
            (mkZone nz).id]
         else tbs) (nz + 1)
      refine ⟨mkZone nz :: nzs, ?_, ?_⟩
      · show (expandZonesLoop mz (fuel + 1) zones tbs nz).1 = zones ++ mkZone nz :: nzs
        simp only [expandZonesLoop]
        rw [if_pos h, heq]
        simp
      · intro z hz
        rcases List.mem_cons.mp hz with hz | hz
        · exact ⟨nz, le_refl nz, by rw [hz]; rfl⟩
        · obtain ⟨j, hj, hid⟩ := hprop z hz
          exact ⟨j, by omega, hid⟩
    · refine ⟨[], ?_, fun z hz => absurd hz (List.not_mem_nil z)⟩
      simp only [expandZonesLoop]
      rw [if_neg h]
      simp

theorem nodeLoop_shape (mn : Nat) (zo : List ZoneR) :
    ∀ (fuel : Nat) (nodes : List NodeR) (nb : List (List Char × NodeR)) (nextN : Nat)
      (res : List NodeR × List (List Char × NodeR)),
      expandNodesLoop mn zo fuel nodes nb nextN = some res →
      ∃ nns, res.1 = nodes ++ nns ∧
        ∀ n, n ∈ nns → ∃ j, nextN ≤ j ∧ n.id = (r"node_").data ++ natToStr j := by
  intro fuel
  induction fuel with
  | zero =>
    intro nodes nb nextN res hres
    injection hres with hres
    refine ⟨[], ?_, fun n hn => absurd hn (List.not_mem_nil n)⟩
    rw [← hres]
    simp
  | succ fuel ih =>
    intro nodes nb nextN res hres
    by_cases h : nodes.length < mn
    · simp only [expandNodesLoop] at hres
      rw [if_pos h] at hres
      cases hget : zo.get? (nextN % zo.length) with
      | none =>
        rw [hget] at hres
        exact absurd hres (by simp)
      | some z =>
        rw [hget] at hres
        obtain ⟨nns, heq, hprop⟩ := ih (nodes ++ [mkNode nextN z.id])
          (dictInsert nb (mkNode nextN z.id).id (mkNode nextN z.id)) (nextN + 1) res hres
        refine ⟨mkNode nextN z.id :: nns, ?_, ?_⟩
        · rw [heq]
          simp
        · intro n hn
          rcases List.mem_cons.mp hn with hn | hn
          · exact ⟨nextN, le_refl nextN, by rw [hn]; rfl⟩
          · obtain ⟨j, hj, hid⟩ := hprop n hn
            exact ⟨j, by omega, hid⟩
    · simp only [expandNodesLoop] at hres
      rw [if_neg h] at hres
      injection hres with hres
      refine ⟨[], ?_, fun n hn => absurd hn (List.not_mem_nil n)⟩
      rw [← hres]
      simp

theorem flowLoop_shape (mf : Nat) (nl : List (List Char)) :
    ∀ (fuel : Nat) (flows : List FlowR) (nextF : Nat),
      ∃ nfs, expandFlowsLoop mf nl fuel flows nextF = flows ++ nfs ∧
        ∀ f, f ∈ nfs → ∃ j, nextF ≤ j ∧ f.id = (r"flow_").data ++ natToStr j := by
  intro fuel
  induction fuel with
  | zero =>
    intro flows nextF
    exact ⟨[], by simp [expandFlowsLoop], fun f hf => absurd hf (List.not_mem_nil f)⟩
  | succ fuel ih =>
    intro flows nextF
    by_cases h : flows.length < mf ∧ 2 ≤ nl.length
    · obtain ⟨nfs, heq, hprop⟩ := ih
        (flows ++ [mkFlow nextF (nl.getD (nextF % (nl.length - 1)) [])
          (nl.getD (nextF % (nl.length - 1) + 1) [])]) (nextF + 1)
      refine ⟨mkFlow nextF (nl.getD (nextF % (nl.length - 1)) [])
          (nl.getD (nextF % (nl.length - 1) + 1) []) :: nfs, ?_, ?_⟩
      · show expandFlowsLoop mf nl (fuel + 1) flows nextF = flows ++ _ :: nfs
        simp only [expandFlowsLoop]
        rw [if_pos h, heq]
        simp
      · intro f hf
        rcases List.mem_cons.mp hf with hf | hf
        · exact ⟨nextF, le_refl nextF, by rw [hf]; rfl⟩
        · obtain ⟨j, hj, hid⟩ := hprop f hf
          exact ⟨j, by omega, hid⟩
    · refine ⟨[], ?_, fun f hf => absurd hf (List.not_mem_nil f)⟩
      simp only [expandFlowsLoop]
      rw [if_neg h]
      simp

def dC8 : Dsl :=
  { zones := [{ id := (r"internal").data, name := [], order := 0, color := [] }]
  , nodes := [ { id := (r"node_2").data, label := none, zone := (r"internal").data, type := (r"app").data, tags := [] }
             , { id := (r"x").data, label := none, zone := (r"internal").data, type := (r"app").data, tags := [] } ]
  , flows := [], trust_boundaries := [] }

/-- C8 (counterexample): the node counter is seeded with the collection size
(2), so with an input node already named `node_2` the first minted placeholder
node also gets the id `node_2`; the expanded graph's node-id list contains the
duplicate even though the input's ids were pairwise distinct. -/
theorem claim_C8_counterexample :
    (dC8.nodes.map (fun n => n.id)).Nodup ∧
    ((expand_dsl_to_density dC8 (buildDict (fun n => n.id) dC8.nodes) 1 3 0).getD
        default).nodes.map (fun n => n.id) =
      [(r"node_2").data, (r"x").data, (r"node_2").data] ∧
    ¬ (((expand_dsl_to_density dC8 (buildDict (fun n => n.id) dC8.nodes) 1 3 0).getD
        default).nodes.map (fun n => n.id)).Nodup := by
  decide

/-- C8 (amended): density expansion only appends elements, and every minted id
has the shape `zone_j` / `node_j` / `flow_j` with the counter `j` at least the
input collection's size; hence the minted ids avoid every id already present
in the corresponding collection provided no input id itself matches that
pattern at an in-range counter value — the seed equals the collection size,
not one past the largest existing suffix, so e.g. an input node named
`node_2` collides with the minted `node_2` (see the counterexample). -/
theorem claim_C8 (d : Dsl) (nb : List (List Char × NodeR)) (mz mn mf : Nat) (g : Dsl)
    (hz : ∀ j, d.zones.length ≤ j →
      (r"zone_").data ++ natToStr j ∉ d.zones.map (fun z => z.id))
    (hn : ∀ j, d.nodes.length ≤ j →
      (r"node_").data ++ natToStr j ∉ d.nodes.map (fun n => n.id))
    (hf : ∀ j, d.flows.length ≤ j →
      (r"flow_").data ++ natToStr j ∉ d.flows.map (fun f => f.id))
    (hsome : expand_dsl_to_density d nb mz mn mf = some g) :
    (∃ nz, g.zones = d.zones ++ nz ∧
      ∀ z, z ∈ nz → z.id ∉ d.zones.map (fun z => z.id)) ∧
    (∃ nn, g.nodes = d.nodes ++ nn ∧
      ∀ n, n ∈ nn → n.id ∉ d.nodes.map (fun n => n.id)) ∧
    (∃ nf, g.flows = d.flows ++ nf ∧
      ∀ f, f ∈ nf → f.id ∉ d.flows.map (fun f => f.id)) := by
  simp only [expand_dsl_to_density] at hsome
  cases hres : expandNodesLoop mn
      (sortByOrder (expandZonesLoop mz mz d.zones d.trust_boundaries d.zones.length).1)
      mn d.nodes nb d.nodes.length with
  | none =>
    rw [hres] at hsome
    exact absurd hsome (by simp)
  | some res =>
    rw [hres] at hsome
    injection hsome with hsome
    subst hsome
    refine ⟨?_, ?_, ?_⟩
    · obtain ⟨nzs, heq, hprop⟩ :=
        zoneLoop_shape mz mz d.zones d.trust_boundaries d.zones.length
      refine ⟨nzs, heq, ?_⟩
      intro z hzm
      obtain ⟨j, hj, hid⟩ := hprop z hzm
      rw [hid]
      exact hz j hj
    · obtain ⟨nns, heq, hprop⟩ := nodeLoop_shape mn _ mn d.nodes nb d.nodes.length res hres
      refine ⟨nns, heq, ?_⟩
      intro n hnm
      obtain ⟨j, hj, hid⟩ := hprop n hnm
      rw [hid]
      exact hn j hj
    · obtain ⟨nfs, heq, hprop⟩ :=
        flowLoop_shape mf (dictKeys res.2) mf d.flows d.flows.length
      refine ⟨nfs, heq, ?_⟩
      intro f hfm
      obtain ⟨j, hj, hid⟩ := hprop f hfm
      rw [hid]
      exact hf j hj

def dC8w : Dsl := { zones := [], nodes := [], flows := [], trust_boundaries := [] }

def gC8w : Dsl := (expand_dsl_to_density dC8w [] 1 3 1).getD default

theorem claim_C8_witness :
    (∃ nz, gC8w.zones = dC8w.zones ++ nz ∧
      ∀ z, z ∈ nz → z.id ∉ dC8w.zones.map (fun z => z.id)) ∧
    (∃ nn, gC8w.nodes = dC8w.nodes ++ nn ∧
      ∀ n, n ∈ nn → n.id ∉ dC8w.nodes.map (fun n => n.id)) ∧
    (∃ nf, gC8w.flows = dC8w.flows ++ nf ∧
      ∀ f, f ∈ nf → f.id ∉ dC8w.flows.map (fun f => f.id)) :=
  claim_C8 dC8w [] 1 3 1 gC8w (by simp [dC8w]) (by simp [dC8w]) (by simp [dC8w])
    (by decide)

theorem canonical_fix_suffixed {c : List Char} (hc : ∃ l, c = canonical_zone_id l)
    (k : Nat) : canonical_zone_id (suffixed c k) = suffixed c k := by
  obtain ⟨l, hl⟩ := hc
  unfold suffixed
  by_cases hk : k = 0
  · rw [if_pos hk]
    exact canonical_idem_image hl
  · rw [if_neg hk]
    exact canonical_suffix_num (hl ▸ NF_canonical l) k

theorem suffixedFrom_fixed {cs cp : List (List Char)}
    (hcs : ∀ c, c ∈ cs → ∃ l, c = canonical_zone_id l) :
    ∀ x, x ∈ suffixedFrom cp cs → canonical_zone_id x = x := by
  intro x hx
  obtain ⟨c, k, hcmem, hxeq, _⟩ := mem_suffixedFrom cs cp x hx
  rw [hxeq]
  exact canonical_fix_suffixed (hcs c hcmem) k

theorem canonical_fix_zone_minted (j : Nat) :
    canonical_zone_id ((r"zone_").data ++ natToStr j) = (r"zone_").data ++ natToStr j := by
  have h : (r"zone_").data ++ natToStr j = (r"zone").data ++ '_' :: natToStr j := rfl
  rw [h]
  exact canonical_suffix_num (by decide) j

theorem nodeLoop_zones (mn : Nat) (zo : List ZoneR) :
    ∀ (fuel : Nat) (nodes : List NodeR) (nb : List (List Char × NodeR)) (nextN : Nat)
      (res : List NodeR × List (List Char × NodeR)),
      expandNodesLoop mn zo fuel nodes nb nextN = some res →
      ∀ n, n ∈ res.1 → n ∈ nodes ∨ n.zone ∈ zo.map (fun z => z.id) := by
  intro fuel
  induction fuel with
  | zero =>
    intro nodes nb nextN res hres n hn
    injection hres with hres
    rw [← hres] at hn
    exact Or.inl hn
  | succ fuel ih =>
    intro nodes nb nextN res hres n hn
    by_cases h : nodes.length < mn
    · simp only [expandNodesLoop] at hres
      rw [if_pos h] at hres
      cases hget : zo.get? (nextN % zo.length) with
      | none =>
        rw [hget] at hres
        exact absurd hres (by simp)
      | some z =>
        rw [hget] at hres
        rcases ih (nodes ++ [mkNode nextN z.id])
            (dictInsert nb (mkNode nextN z.id).id (mkNode nextN z.id)) (nextN + 1)
            res hres n hn with hmem | hmem
        · rcases List.mem_append.mp hmem with hmem | hmem
          · exact Or.inl hmem
          · right
            rw [List.mem_singleton.mp hmem]
            exact List.mem_map_of_mem (fun z => z.id) (List.get?_mem hget)
        · exact Or.inr hmem
    · simp only [expandNodesLoop] at hres
      rw [if_neg h] at hres
      injection hres with hres
      rw [← hres] at hn
      exact Or.inl hn

theorem renameZones_fixed :
    ∀ (zs : List ZoneR) (st : RenameState),
      (∀ z, z ∈ zs → canonical_zone_id z.id = z.id) →
      (∀ z, z ∈ zs → dictLookup st.seen z.id = none) →
      ((zs.map (fun z => z.id)).Nodup) →
      (∀ x, remapZone st.map x = x) →
      (zs.foldl renameStep st).zones = st.zones ++ zs ∧
        (∀ x, remapZone (zs.foldl renameStep st).map x = x) := by
  intro zs
  induction zs with
  | nil =>
    intro st _ _ _ hmap
    exact ⟨(List.append_nil _).symm, hmap⟩
  | cons z rest ih =>
    intro st hfix hfresh hnd hmap
    simp only [List.foldl_cons]
    have hstep : renameStep st z =
        { seen := dictInsert st.seen z.id 0
        , map := dictInsert st.map z.id z.id
        , zones := st.zones ++ [z] } := by
      simp only [renameStep]
      rw [hfix z (List.mem_cons_self z rest), hfresh z (List.mem_cons_self z rest)]
    rw [hstep]
    simp only [List.map_cons, List.nodup_cons] at hnd
    have h1 : ∀ w, w ∈ rest → dictLookup (dictInsert st.seen z.id 0) w.id = none := by
      intro w hw
      have hne : w.id ≠ z.id := by
        intro habs
        exact hnd.1 (habs ▸ List.mem_map_of_mem (fun z => z.id) hw)
      rw [dictLookup_insert_ne _ _ hne]
      exact hfresh w (List.mem_cons_of_mem z hw)
    have h2 : ∀ x, remapZone (dictInsert st.map z.id z.id) x = x := by
      intro x
      by_cases hx : x = z.id
      · rw [hx]
        unfold remapZone
        rw [dictLookup_insert_self]
        rfl
      · unfold remapZone
        rw [dictLookup_insert_ne _ _ hx]
        exact hmap x
    obtain ⟨hzz, hmm⟩ := ih
      { seen := dictInsert st.seen z.id 0
      , map := dictInsert st.map z.id z.id
      , zones := st.zones ++ [z] }
      (fun w hw => hfix w (List.mem_cons_of_mem z hw)) h1 hnd.2 h2
    refine ⟨?_, hmm⟩
    rw [hzz]
    simp

theorem prepare_fixed (G : Dsl) (mz mn mf mh : Nat)
    (hfix : ∀ z, z ∈ G.zones → canonical_zone_id z.id = z.id)
    (hnd : (G.zones.map (fun z => z.id)).Nodup)
    (hne : G.zones ≠ [])
    (hvalid : ∀ n, n ∈ G.nodes → n.zone ∈ G.zones.map (fun z => z.id))
    (hmh : mh ≤ G.nodes.length)
    (hmz : mz ≤ G.zones.length) (hmn : mn ≤ G.nodes.length)
    (hmf : mf ≤ G.flows.length) :
    ∃ p, validate_and_prepare_dsl G mz mn mf mh true = some p ∧
      p.errors = [] ∧ p.expanded = false ∧
      p.result = some { G with zones := sortByOrder G.zones } := by
  have hperm := sortByOrder_perm G.zones
  have hfix' : ∀ z, z ∈ sortByOrder G.zones → canonical_zone_id z.id = z.id :=
    fun z hz => hfix z (hperm.mem_iff.mp hz)
  have hnd' : ((sortByOrder G.zones).map (fun z => z.id)).Nodup :=
    ((hperm.map (fun z => z.id)).nodup_iff).mpr hnd
  obtain ⟨hzz, hmapid⟩ := renameZones_fixed (sortByOrder G.zones)
    { seen := [], map := [], zones := [] } hfix' (fun z _ => rfl) hnd' (fun x => rfl)
  have hzones2 : (renameZones (sortByOrder G.zones)).zones = sortByOrder G.zones := by
    unfold renameZones
    rw [hzz]
    exact List.nil_append _
  have hmapid2 : ∀ x, remapZone (renameZones (sortByOrder G.zones)).map x = x :=
    fun x => hmapid x
  have hnodes2 : remapNodes (renameZones (sortByOrder G.zones)).map G.nodes = G.nodes := by
    unfold remapNodes
    rw [List.map_congr_left (fun n hn => ?_), List.map_id']
    rw [hmapid2 n.zone]
  have hnesort : sortByOrder G.zones ≠ [] := by
    intro habs
    rw [habs] at hperm
    exact hne (hperm.symm.eq_nil)
  have hempty : (sortByOrder G.zones).isEmpty = false := isEmpty_false_of_ne_nil hnesort
  have herrs : (remapNodes (renameZones (sortByOrder G.zones)).map G.nodes).filterMap
      (fun n => if n.zone ∈ (renameZones (sortByOrder G.zones)).zones.map (fun z => z.id)
        then none else some (invalidZoneMsg n)) = [] := by
    rw [hnodes2, hzones2]
    rw [List.filterMap_eq_nil_iff]
    intro n hn
    have hmem : n.zone ∈ (sortByOrder G.zones).map (fun z => z.id) :=
      ((hperm.map (fun z => z.id)).mem_iff).mpr (hvalid n hn)
    rw [if_pos hmem]
  refine ⟨{ result := some { G with zones := sortByOrder G.zones }
          , errors := []
          , warnings := flowWarnings G.flows (G.nodes.map (fun n => n.id)) ++
              emptyZoneWarnings (sortByOrder G.zones) G.nodes
          , expanded := false }, ?_, rfl, rfl, rfl⟩
  simp only [validate_and_prepare_dsl]
  rw [if_neg (fun hc => hc.2 trivial)]
  rw [if_neg (fun hc => by rw [hempty] at hc; exact absurd hc.1 (by decide))]
  rw [herrs]
  rw [if_neg (by decide)]
  rw [hnodes2, hzones2]
  rw [if_neg (by omega)]
  have hcond : ¬ (True ∧ ((sortByOrder G.zones).length < mz ∨
      G.nodes.length < mn ∨ G.flows.length < mf)) := by
    intro hc
    rcases hc.2 with hlt | hlt | hlt
    · rw [hperm.length_eq] at hlt
      omega
    · omega
    · omega
  rw [if_neg hcond]

theorem expand_full (d : Dsl) (nb : List (List Char × NodeR)) (mz mn mf : Nat) (g : Dsl)
    (hmz : 1 ≤ mz) (hmn : 3 ≤ mn)
    (hlen : (dictKeys nb).length = d.nodes.length)
    (hnod : (dictKeys nb).Nodup)
    (hfixin : ∀ z, z ∈ d.zones → canonical_zone_id z.id = z.id)
    (hvalidin : ∀ n, n ∈ d.nodes → n.zone ∈ d.zones.map (fun z => z.id))
    (hsome : expand_dsl_to_density d nb mz mn mf = some g) :
    (∀ z, z ∈ g.zones → canonical_zone_id z.id = z.id) ∧
    (∀ n, n ∈ g.nodes → n.zone ∈ g.zones.map (fun z => z.id)) ∧
    mz ≤ g.zones.length ∧ mn ≤ g.nodes.length ∧ mf ≤ g.flows.length := by
  obtain ⟨g', hg', hcz, hcn, hcf⟩ := expand_density_counts d nb mz mn mf hmz hmn hlen hnod
  rw [hsome] at hg'
  injection hg' with hg'
  subst hg'
  refine ⟨?_, ?_, hcz, hcn, hcf⟩
  · -- every zone id in the output is a canonical fixed point
    simp only [expand_dsl_to_density] at hsome
    cases hres : expandNodesLoop mn
        (sortByOrder (expandZonesLoop mz mz d.zones d.trust_boundaries d.zones.length).1)
        mn d.nodes nb d.nodes.length with
    | none =>
      rw [hres] at hsome
      exact absurd hsome (by simp)
    | some res =>
      rw [hres] at hsome
      injection hsome with hsome
      obtain ⟨nzs, heq, hprop⟩ :=
        zoneLoop_shape mz mz d.zones d.trust_boundaries d.zones.length
      intro z hz
      have hz2 : z ∈ (expandZonesLoop mz mz d.zones d.trust_boundaries d.zones.length).1 := by
        rw [← hsome] at hz
        exact hz
      rw [heq] at hz2
      rcases List.mem_append.mp hz2 with hmem | hmem
      · exact hfixin z hmem
      · obtain ⟨j, _, hid⟩ := hprop z hmem
        rw [hid]
        exact canonical_fix_zone_minted j
  · -- every node in the output references a zone id of the output
    simp only [expand_dsl_to_density] at hsome
    cases hres : expandNodesLoop mn
        (sortByOrder (expandZonesLoop mz mz d.zones d.trust_boundaries d.zones.length).1)
        mn d.nodes nb d.nodes.length with
    | none =>
      rw [hres] at hsome
      exact absurd hsome (by simp)
    | some res =>
      rw [hres] at hsome
      injection hsome with hsome
      obtain ⟨nzs, heq, _⟩ :=
        zoneLoop_shape mz mz d.zones d.trust_boundaries d.zones.length
      intro n hn
      have hn2 : n ∈ res.1 := by
        rw [← hsome] at hn
        exact hn
      have hgz : g.zones = (expandZonesLoop mz mz d.zones d.trust_boundaries
          d.zones.length).1 := by
        rw [← hsome]
      rcases nodeLoop_zones mn _ mn d.nodes nb d.nodes.length res hres n hn2 with hmem | hmem
      · have := hvalidin n hmem
        rw [hgz, heq, List.map_append]
        exact List.mem_append_left _ this
      · rw [hgz]
        have hp := (sortByOrder_perm (expandZonesLoop mz mz d.zones d.trust_boundaries
          d.zones.length).1).map (fun z => z.id)
        exact hp.mem_iff.mp hmem

theorem zones2_fixed (dsl : Dsl) :
    ∀ z, z ∈ (renameZones (sortByOrder dsl.zones)).zones →
      canonical_zone_id z.id = z.id := by
  intro z hz
  have hmem : z.id ∈ (renameZones (sortByOrder dsl.zones)).zones.map (fun z => z.id) :=
    List.mem_map_of_mem (fun z => z.id) hz
  rw [renameZones_ids] at hmem
  refine suffixedFrom_fixed ?_ z.id hmem
  intro c hc
  obtain ⟨w, _, hw⟩ := List.mem_map.mp hc
  exact ⟨w.id, hw.symm⟩

theorem errs_empty_valid (dsl : Dsl)
    (h : ((remapNodes (renameZones (sortByOrder dsl.zones)).map dsl.nodes).filterMap
      (fun n => if n.zone ∈ (renameZones (sortByOrder dsl.zones)).zones.map (fun z => z.id)
        then none else some (invalidZoneMsg n))).isEmpty = true) :
    ∀ n, n ∈ remapNodes (renameZones (sortByOrder dsl.zones)).map dsl.nodes →
      n.zone ∈ (renameZones (sortByOrder dsl.zones)).zones.map (fun z => z.id) := by
  simp only [List.isEmpty_eq_true] at h
  rw [List.filterMap_eq_nil_iff] at h
  intro n hn
  by_cases hmem : n.zone ∈ (renameZones (sortByOrder dsl.zones)).zones.map (fun z => z.id)
  · exact hmem
  · have hcontra := h n hn
    rw [if_neg hmem] at hcontra
    exact absurd hcontra (by simp)

/-- C7 (amended): a successful run of `validate_and_prepare_dsl` is reproduced
by a second run on its output — same zone identifiers (as a multiset; zones
may be reordered by the stable re-sort), identical node and flow lists, empty
errors and no expansion — provided the first output's zone ids are pairwise
distinct (with distinct input node ids, `min_zones ≥ 1`, `min_nodes ≥ 3` and
`min_nodes_hard ≤ min_nodes`); every output zone id is a canonicalization
fixed point, but when the first run's suffixing collides with a literal zone
id the second run re-suffixes and the zone identifiers change (see the
counterexample). -/
theorem claim_C7 (dsl : Dsl) (mz mn mf mh : Nat) (p : PrepResult) (G : Dsl)
    (hmz : 1 ≤ mz) (hmn : 3 ≤ mn) (hmh : mh ≤ mn)
    (hnodupN : (dsl.nodes.map (fun n => n.id)).Nodup)
    (h : validate_and_prepare_dsl dsl mz mn mf mh true = some p)
    (hres : p.result = some G)
    (hndG : (G.zones.map (fun z => z.id)).Nodup) :
    ∃ p2, validate_and_prepare_dsl G mz mn mf mh true = some p2 ∧
      p2.errors = [] ∧ p2.expanded = false ∧
      ∃ G2, p2.result = some G2 ∧
        (G2.zones.map (fun z => z.id)).Perm (G.zones.map (fun z => z.id)) ∧
        G2.zones.length = G.zones.length ∧ G2.nodes = G.nodes ∧ G2.flows = G.flows := by
  have hmain : (∀ z, z ∈ G.zones → canonical_zone_id z.id = z.id) ∧
      (∀ n, n ∈ G.nodes → n.zone ∈ G.zones.map (fun z => z.id)) ∧
      mz ≤ G.zones.length ∧ mn ≤ G.nodes.length ∧ mf ≤ G.flows.length ∧
      mh ≤ G.nodes.length := by
    simp only [validate_and_prepare_dsl] at h
    split at h
    · next hc1 => simp at hc1
    · split at h
      · cases hexp : expand_dsl_to_density
            { dsl with zones := [], nodes := [], flows := [], trust_boundaries := [] }
            [] mz mn mf with
        | none =>
          rw [hexp] at h
          exact absurd h (by simp)
        | some gE =>
          rw [hexp] at h
          injection h with h
          subst h
          have hGE : gE = G := by
            have h2 : some gE = some G := hres
            injection h2
          subst hGE
          obtain ⟨hfx, hvl, hcz, hcn, hcf⟩ := expand_full _ [] mz mn mf gE hmz hmn rfl
            List.nodup_nil (fun z hz => absurd hz (List.not_mem_nil z))
            (fun n hn => absurd hn (List.not_mem_nil n)) hexp
          exact ⟨hfx, hvl, hcz, hcn, hcf, le_trans hmh hcn⟩
      · split at h
        · injection h with h
          subst h
          simp at hres
        · next hcerr =>
          split at h
          · injection h with h
            subst h
            simp at hres
          · next hchard =>
            simp only [Bool.not_eq_false] at hcerr
            have hvalid2 := errs_empty_valid dsl hcerr
            split at h
            · have hids : ((remapNodes (renameZones (sortByOrder dsl.zones)).map
                  dsl.nodes).map (fun n => n.id)).Nodup := by
                rw [remapNodes_ids]
                exact hnodupN
              have hkeys := buildDict_keys hids
              cases hexp : expand_dsl_to_density
                  { dsl with zones := (renameZones (sortByOrder dsl.zones)).zones
                           , nodes := remapNodes (renameZones (sortByOrder dsl.zones)).map dsl.nodes
                           , flows := dsl.flows
                           , trust_boundaries := dsl.trust_boundaries }
                  (buildDict (fun n => n.id)
                    (remapNodes (renameZones (sortByOrder dsl.zones)).map dsl.nodes))
                  mz mn mf with
              | none =>
                rw [hexp] at h
                exact absurd h (by simp)
              | some gE =>
                rw [hexp] at h
                injection h with h
                subst h
                have hGE : gE = G := by
                  have h2 : some gE = some G := hres
                  injection h2
                subst hGE
                obtain ⟨hfx, hvl, hcz, hcn, hcf⟩ := expand_full _ _ mz mn mf gE hmz hmn
                  (by rw [hkeys]; simp) (by rw [hkeys]; exact hids)
                  (fun z hz => zones2_fixed dsl z hz) (fun n hn => hvalid2 n hn) hexp
                exact ⟨hfx, hvl, hcz, hcn, hcf, le_trans hmh hcn⟩
            · next hcexp =>
              injection h with h
              subst h
              have h2 : some ({ dsl with
                  zones := (renameZones (sortByOrder dsl.zones)).zones
                , nodes := remapNodes (renameZones (sortByOrder dsl.zones)).map dsl.nodes
                , flows := dsl.flows
                , trust_boundaries := dsl.trust_boundaries } : Dsl) = some G := hres
              injection h2 with h2
              have hc2 : ¬ ((renameZones (sortByOrder dsl.zones)).zones.length < mz ∨
                  (remapNodes (renameZones (sortByOrder dsl.zones)).map dsl.nodes).length < mn ∨
                  dsl.flows.length < mf) := fun hd => hcexp ⟨trivial, hd⟩
              push_neg at hc2
              rw [← h2]
              exact ⟨fun z hz => zones2_fixed dsl z hz, fun n hn => hvalid2 n hn,
                hc2.1, hc2.2.1, hc2.2.2, Nat.le_of_not_lt hchard⟩
  obtain ⟨hfixG, hvalidG, hcz, hcn, hcf, hmhG⟩ := hmain
  have hneG : G.zones ≠ [] := by
    intro habs
    rw [habs] at hcz
    simp only [List.length_nil] at hcz
    omega
  obtain ⟨p2, heq2, herr2, hexp2, hres2⟩ :=
    prepare_fixed G mz mn mf mh hfixG hndG hneG hvalidG hmhG hcz hcn hcf
  refine ⟨p2, heq2, herr2, hexp2, { G with zones := sortByOrder G.zones }, hres2,
    ?_, ?_, rfl, rfl⟩
  · exact (sortByOrder_perm G.zones).map (fun z => z.id)
  · exact (sortByOrder_perm G.zones).length_eq

def dC7 : Dsl :=
  { zones := [ { id := (r"internet").data, name := [], order := 0, color := [] }
             , { id := (r"internet_1").data, name := [], order := 1, color := [] }
             , { id := (r"external").data, name := [], order := 2, color := [] } ]
  , nodes := [{ id := (r"n0").data, label := none, zone := (r"internet").data
              , type := (r"app").data, tags := [] }]
  , flows := [], trust_boundaries := [] }

def pC7a : PrepResult := (validate_and_prepare_dsl dC7 1 1 0 1 true).getD default

def gC7a : Dsl := pC7a.result.getD default

def pC7b : PrepResult := (validate_and_prepare_dsl gC7a 1 1 0 1 true).getD default

def gC7b : Dsl := pC7b.result.getD default

/-- C7 (counterexample): both runs succeed with no errors, but the second run
re-suffixes the colliding zone id `internet_1` to `internet_1_1`, so the zone
identifiers of the twice-processed graph differ from those of the first
output — `validate_and_prepare_dsl` is not idempotent on this successful
output. -/
theorem claim_C7_counterexample :
    pC7a.errors = [] ∧ pC7a.result.isSome = true ∧
    pC7b.errors = [] ∧ pC7b.result.isSome = true ∧
    gC7a.zones.map (fun z => z.id) =
      [(r"internet").data, (r"internet_1").data, (r"internet_1").data] ∧
    gC7b.zones.map (fun z => z.id) =
      [(r"internet").data, (r"internet_1").data, (r"internet_1_1").data] ∧
    gC7b.zones.map (fun z => z.id) ≠ gC7a.zones.map (fun z => z.id) := by
  decide

def dC7w : Dsl :=
  { zones := [{ id := (r"internal").data, name := [], order := 0, color := [] }]
  , nodes := [{ id := (r"b").data, label := none, zone := (r"internal").data
              , type := (r"app").data, tags := [] }]
  , flows := [], trust_boundaries := [] }

def pC7w : PrepResult := (validate_and_prepare_dsl dC7w 1 3 1 1 true).getD default

def gC7w : Dsl := pC7w.result.getD default

theorem claim_C7_witness :
    ∃ p2, validate_and_prepare_dsl gC7w 1 3 1 1 true = some p2 ∧
      p2.errors = [] ∧ p2.expanded = false ∧
      ∃ G2, p2.result = some G2 ∧
        (G2.zones.map (fun z => z.id)).Perm (gC7w.zones.map (fun z => z.id)) ∧
        G2.zones.length = gC7w.zones.length ∧
        G2.nodes = gC7w.nodes ∧ G2.flows = gC7w.flows :=
  claim_C7 dC7w 1 3 1 1 pC7w gC7w (by decide) (by decide) (by decide) (by decide)
    (by decide) (by decide) (by decide)

/-! Counting occurrences of `<`-headed patterns in the serialized document:
escaped attribute text is `<`-free, so matches can only start at the tag
openers, which are concrete literals. -/

def noLt (l : List Char) : Bool := l.all (fun c => c != '<')

def goodAttrs (attrs : List (List Char × List Char)) : Bool :=
  attrs.all (fun kv => noLt kv.1)

/-- Key cleanliness of a cell: attribute names contain no `<` (attribute
values are escaped by the serializer and need no side condition). -/
def goodCell (c : MxCell) : Bool :=
  goodAttrs c.attrs &&
    (match c.geom with
     | none => true
     | some g => goodAttrs g)

theorem escAttrChar_noLt (a : Char) : noLt (escAttrChar a) = true := by
  unfold escAttrChar noLt
  by_cases h1 : a = '&'
  · rw [if_pos h1]; decide
  · rw [if_neg h1]
    by_cases h2 : a = '<'
    · rw [if_pos h2]; decide
    · rw [if_neg h2]
      by_cases h3 : a = '>'
      · rw [if_pos h3]; decide
      · rw [if_neg h3]
        by_cases h4 : a = '"'
        · rw [if_pos h4]; decide
        · rw [if_neg h4]
          by_cases h5 : a = '\r'
          · rw [if_pos h5]; decide
          · rw [if_neg h5]
            by_cases h6 : a = '\n'
            · rw [if_pos h6]; decide
            · rw [if_neg h6]
              by_cases h7 : a = '\t'
              · rw [if_pos h7]; decide
              · rw [if_neg h7]
                show ((a != '<') && true) = true
                rw [Bool.and_true]
                exact bne_iff_ne.mpr h2

theorem noLt_serAttrs {attrs : List (List Char × List Char)}
    (h : goodAttrs attrs = true) : noLt (serAttrs attrs) = true := by
  unfold noLt serAttrs
  rw [List.all_eq_true]
  intro c hc
  rw [List.mem_flatMap] at hc
  obtain ⟨kv, hkv, hc⟩ := hc
  rcases List.mem_cons.mp hc with hc | hc
  · subst hc; decide
  rcases List.mem_append.mp hc with hc | hc
  · unfold goodAttrs at h
    rw [List.all_eq_true] at h
    have h2 := h kv hkv
    unfold noLt at h2
    rw [List.all_eq_true] at h2
    exact h2 c hc
  rcases List.mem_cons.mp hc with hc | hc
  · subst hc; decide
  rcases List.mem_cons.mp hc with hc | hc
  · subst hc; decide
  rcases List.mem_append.mp hc with hc | hc
  · unfold escapeAttr at hc
    rw [List.mem_flatMap] at hc
    obtain ⟨a, _, hc⟩ := hc
    have h2 := escAttrChar_noLt a
    unfold noLt at h2
    rw [List.all_eq_true] at h2
    exact h2 c hc
  · rw [List.mem_singleton] at hc
    subst hc; decide

theorem countOcc_append_noLt {q : List Char} :
    ∀ {a : List Char} (t : List Char), noLt a = true →
      countOcc ('<' :: q) (a ++ t) = countOcc ('<' :: q) t := by
  intro a
  induction a with
  | nil => intro t _; rfl
  | cons c a ih =>
    intro t h
    unfold noLt at h
    rw [List.all_cons, Bool.and_eq_true] at h
    have hne : ¬ ('<' = c) := fun habs => (bne_iff_ne.mp h.1) habs.symm
    rw [List.cons_append, countOcc_cons]
    have hpre : isPre ('<' :: q) (c :: (a ++ t)) = false := by
      simp [isPre, hne]
    rw [hpre]
    simp only [Bool.false_eq_true, if_false, Nat.zero_add]
    exact ih t h.2

theorem isPre_append_take :
    ∀ (q a t : List Char),
      isPre q (a ++ t) = (isPre (q.take a.length) a && isPre (q.drop a.length) t) := by
  intro q a
  induction a generalizing q with
  | nil =>
    intro t
    simp [isPre]
  | cons b bs ih =>
    intro t
    cases q with
    | nil => simp [isPre]
    | cons x q =>
      rw [List.cons_append]
      show (decide (x = b) && isPre q (bs ++ t)) = _
      rw [ih q t]
      simp only [List.length_cons, List.take_succ_cons, List.drop_succ_cons]
      show _ = ((decide (x = b) && isPre (q.take bs.length) bs) && isPre (q.drop bs.length) t)
      rw [Bool.and_assoc]

theorem countOcc_block {q b : List Char} (t : List Char) (hb : noLt b = true) :
    countOcc ('<' :: q) (('<' :: b) ++ t) =
      (if isPre q (b ++ t) then 1 else 0) + countOcc ('<' :: q) t := by
  rw [List.cons_append, countOcc_cons]
  have h1 : isPre ('<' :: q) ('<' :: (b ++ t)) = isPre q (b ++ t) := by
    simp [isPre]
  rw [h1, countOcc_append_noLt t hb]

theorem countOcc_block_skip {q b : List Char} {n : Nat} (t : List Char)
    (hb : noLt b = true) (hn : b.length = n) (hm : isPre (q.take n) b = false) :
    countOcc ('<' :: q) (('<' :: b) ++ t) = countOcc ('<' :: q) t := by
  subst hn
  rw [countOcc_block t hb, isPre_append_take, hm]
  simp

theorem countOcc_block_hit {q b : List Char} {n : Nat} (t : List Char)
    (hb : noLt b = true) (hn : b.length = n) (hm : isPre (q.take n) b = true)
    (hlen : q.length ≤ n) :
    countOcc ('<' :: q) (('<' :: b) ++ t) = 1 + countOcc ('<' :: q) t := by
  subst hn
  rw [countOcc_block t hb, isPre_append_take, hm, List.drop_eq_nil_of_le hlen]
  simp [isPre]

theorem countOcc_serCell {q : List Char} (c : MxCell) (t : List Char)
    (hc : goodCell c = true)
    (h1 : isPre (q.take 6) ['m', 'x', 'C', 'e', 'l', 'l'] = false)
    (h2 : isPre (q.take 10) ['m', 'x', 'G', 'e', 'o', 'm', 'e', 't', 'r', 'y'] = false)
    (h3 : isPre (q.take 8) ['/', 'm', 'x', 'C', 'e', 'l', 'l', '>'] = false) :
    countOcc ('<' :: q) (serCell c ++ t) = countOcc ('<' :: q) t := by
  unfold goodCell at hc
  rw [Bool.and_eq_true] at hc
  have hattrs : noLt (serAttrs c.attrs) = true := noLt_serAttrs hc.1
  unfold serCell
  cases hg : c.geom with
  | none =>
    simp only [List.append_assoc]
    rw [countOcc_block_skip _ (by decide) (by decide) h1]
    rw [countOcc_append_noLt _ hattrs]
    rw [countOcc_append_noLt _ (by decide : noLt [' ', '/', '>'] = true)]
  | some g =>
    have hgeo : noLt (serAttrs g) = true := by
      apply noLt_serAttrs
      have hge := hc.2
      rw [hg] at hge
      exact hge
    simp only [List.append_assoc]
    rw [countOcc_block_skip _ (by decide) (by decide) h1]
    rw [countOcc_append_noLt _ hattrs]
    rw [countOcc_append_noLt _ (by decide : noLt ['>'] = true)]
    rw [countOcc_block_skip _ (by decide) (by decide) h2]
    rw [countOcc_append_noLt _ hgeo]
    rw [countOcc_append_noLt _ (by decide : noLt [' ', '/', '>'] = true)]
    rw [countOcc_block_skip _ (by decide) (by decide) h3]

theorem countOcc_cells {q : List Char} :
    ∀ (cells : List MxCell) (t : List Char), cells.all goodCell = true →
      isPre (q.take 6) ['m', 'x', 'C', 'e', 'l', 'l'] = false →
      isPre (q.take 10) ['m', 'x', 'G', 'e', 'o', 'm', 'e', 't', 'r', 'y'] = false →
      isPre (q.take 8) ['/', 'm', 'x', 'C', 'e', 'l', 'l', '>'] = false →
      countOcc ('<' :: q) (cells.flatMap serCell ++ t) = countOcc ('<' :: q) t := by
  intro cells
  induction cells with
  | nil => intro t _ _ _ _; rfl
  | cons c cs ih =>
    intro t hall h1 h2 h3
    rw [List.all_cons, Bool.and_eq_true] at hall
    rw [List.flatMap_cons, List.append_assoc]
    rw [countOcc_serCell c _ hall.1 h1 h2 h3]
    exact ih t hall.2 h1 h2 h3

theorem countOcc_doc_xml (cells : List MxCell) (hall : cells.all goodCell = true) :
    countOcc ('<' :: ['?', 'x', 'm', 'l']) (serializeDoc cells) = 0 := by
  have s1 : ∀ t, countOcc ('<' :: ['?', 'x', 'm', 'l'])
      (('<' :: ['m', 'x', 'f', 'i', 'l', 'e']) ++ t) =
      countOcc ('<' :: ['?', 'x', 'm', 'l']) t :=
    fun t => countOcc_block_skip t (by decide) rfl (by decide)
  have s2 : ∀ t, countOcc ('<' :: ['?', 'x', 'm', 'l'])
      (('<' :: ['d', 'i', 'a', 'g', 'r', 'a', 'm']) ++ t) =
      countOcc ('<' :: ['?', 'x', 'm', 'l']) t :=
    fun t => countOcc_block_skip t (by decide) rfl (by decide)
  have s3 : ∀ t, countOcc ('<' :: ['?', 'x', 'm', 'l'])
      (('<' :: ['m', 'x', 'G', 'r', 'a', 'p', 'h', 'M', 'o', 'd', 'e', 'l']) ++ t) =
      countOcc ('<' :: ['?', 'x', 'm', 'l']) t :=
    fun t => countOcc_block_skip t (by decide) rfl (by decide)
  have s4 : ∀ t, countOcc ('<' :: ['?', 'x', 'm', 'l'])
      (('<' :: ['r', 'o', 'o', 't', '>']) ++ t) =
      countOcc ('<' :: ['?', 'x', 'm', 'l']) t :=
    fun t => countOcc_block_skip t (by decide) rfl (by decide)
  have sc : ∀ t, countOcc ('<' :: ['?', 'x', 'm', 'l']) (cells.flatMap serCell ++ t) =
      countOcc ('<' :: ['?', 'x', 'm', 'l']) t :=
    fun t => countOcc_cells cells t hall (by decide) (by decide) (by decide)
  unfold serializeDoc
  simp only [List.append_assoc]
  rw [s1, countOcc_append_noLt _ (by decide : noLt (serAttrs mxfileAttrs) = true),
    countOcc_append_noLt _ (by decide : noLt ['>'] = true), s2,
    countOcc_append_noLt _ (by decide : noLt (serAttrs diagramAttrs) = true),
    countOcc_append_noLt _ (by decide : noLt ['>'] = true), s3,
    countOcc_append_noLt _ (by decide : noLt (serAttrs modelAttrs) = true),
    countOcc_append_noLt _ (by decide : noLt ['>'] = true), s4, sc]
  decide

theorem countOcc_doc_mxfile (cells : List MxCell) (hall : cells.all goodCell = true) :
    countOcc ('<' :: ['m', 'x', 'f', 'i', 'l', 'e']) (serializeDoc cells) = 1 := by
  have s1 : ∀ t, countOcc ('<' :: ['m', 'x', 'f', 'i', 'l', 'e'])
      (('<' :: ['m', 'x', 'f', 'i', 'l', 'e']) ++ t) =
      1 + countOcc ('<' :: ['m', 'x', 'f', 'i', 'l', 'e']) t :=
    fun t => countOcc_block_hit t (by decide) rfl (by decide) (by decide)
  have s2 : ∀ t, countOcc ('<' :: ['m', 'x', 'f', 'i', 'l', 'e'])
      (('<' :: ['d', 'i', 'a', 'g', 'r', 'a', 'm']) ++ t) =
      countOcc ('<' :: ['m', 'x', 'f', 'i', 'l', 'e']) t :=
    fun t => countOcc_block_skip t (by decide) rfl (by decide)
  have s3 : ∀ t, countOcc ('<' :: ['m', 'x', 'f', 'i', 'l', 'e'])
      (('<' :: ['m', 'x', 'G', 'r', 'a', 'p', 'h', 'M', 'o', 'd', 'e', 'l']) ++ t) =
      countOcc ('<' :: ['m', 'x', 'f', 'i', 'l', 'e']) t :=
    fun t => countOcc_block_skip t (by decide) rfl (by decide)
  have s4 : ∀ t, countOcc ('<' :: ['m', 'x', 'f', 'i', 'l', 'e'])
      (('<' :: ['r', 'o', 'o', 't', '>']) ++ t) =
      countOcc ('<' :: ['m', 'x', 'f', 'i', 'l', 'e']) t :=
    fun t => countOcc_block_skip t (by decide) rfl (by decide)
  have sc : ∀ t, countOcc ('<' :: ['m', 'x', 'f', 'i', 'l', 'e'])
      (cells.flatMap serCell ++ t) =
      countOcc ('<' :: ['m', 'x', 'f', 'i', 'l', 'e']) t :=
    fun t => countOcc_cells cells t hall (by decide) (by decide) (by decide)
  unfold serializeDoc
  simp only [List.append_assoc]
  rw [s1, countOcc_append_noLt _ (by decide : noLt (serAttrs mxfileAttrs) = true),
    countOcc_append_noLt _ (by decide : noLt ['>'] = true), s2,
    countOcc_append_noLt _ (by decide : noLt (serAttrs diagramAttrs) = true),
    countOcc_append_noLt _ (by decide : noLt ['>'] = true), s3,
    countOcc_append_noLt _ (by decide : noLt (serAttrs modelAttrs) = true),
    countOcc_append_noLt _ (by decide : noLt ['>'] = true), s4, sc]
  decide

theorem goodAttrs_append (l1 l2 : List (List Char × List Char)) :
    goodAttrs (l1 ++ l2) = (goodAttrs l1 && goodAttrs l2) := by
  unfold goodAttrs
  rw [List.all_append]

theorem goodAttrs_addCell (cid pid v st : List Char) (ve ed : Bool)
    (src tgt : Option (List Char)) :
    goodAttrs (addCellAttrs cid pid v st ve ed src tgt) = true := by
  unfold addCellAttrs
  by_cases hv : v ≠ [] <;> by_cases hs : st ≠ [] <;> cases ve <;> cases ed <;>
    cases src <;> cases tgt <;>
    simp only [if_pos hv, if_neg hv, if_pos hs, if_neg hs, if_true, if_false] <;>
    rfl

theorem goodAttrs_geom (x y w h rel : List Char) :
    goodAttrs (geomAttrs x y w h rel) = true := rfl

theorem foldl_cells_ext {α : Type} {β : Type}
    (f : (List MxCell × β) → α → (List MxCell × β))
    (hf : ∀ st a, ∃ cs, (f st a).1 = st.1 ++ cs ∧ cs.all goodCell = true) :
    ∀ (l : List α) (st : List MxCell × β),
      ∃ cs, (l.foldl f st).1 = st.1 ++ cs ∧ cs.all goodCell = true := by
  intro l
  induction l with
  | nil => intro st; exact ⟨[], (List.append_nil _).symm, rfl⟩
  | cons a t ih =>
    intro st
    obtain ⟨cs1, h1, hg1⟩ := hf st a
    obtain ⟨cs2, h2, hg2⟩ := ih (f st a)
    refine ⟨cs1 ++ cs2, ?_, ?_⟩
    · rw [List.foldl_cons, h2, h1, List.append_assoc]
    · rw [List.all_append, hg1, hg2]
      rfl

theorem goodCell_mk_geom (attrs geo : List (List Char × List Char))
    (h1 : goodAttrs attrs = true) (h2 : goodAttrs geo = true) :
    goodCell { attrs := attrs, geom := some geo } = true := by
  show (goodAttrs attrs && goodAttrs geo) = true
  rw [h1, h2]
  rfl

theorem foldl_cells_all {α β : Type}
    {f : (List MxCell × β) → α → (List MxCell × β)} {l : List α} {st : List MxCell × β}
    (hst : st.1.all goodCell = true)
    (hf : ∀ st a, ∃ cs, (f st a).1 = st.1 ++ cs ∧ cs.all goodCell = true) :
    (l.foldl f st).1.all goodCell = true := by
  obtain ⟨cs, hcs, hg⟩ := foldl_cells_ext f hf l st
  rw [hcs, List.all_append, hst, hg]
  rfl

theorem buildZoneCells_good (zones : List ZoneR)
    (zg : List (List Char × (Nat × Nat × Nat × Nat))) (ctr0 : Nat) :
    (buildZoneCells zones zg ctr0).1.all goodCell = true := by
  unfold buildZoneCells
  apply foldl_cells_all
  · rfl
  intro st z
  refine ⟨_, rfl, ?_⟩
  rw [List.all_cons,
    goodCell_mk_geom _ _ (goodAttrs_addCell _ _ _ _ _ _ _ _) (goodAttrs_geom _ _ _ _ _)]
  rfl

theorem buildNodeCells_good (zones : List ZoneR) (niz : List (List Char × List NodeR))
    (zoneCellIds : List (List Char × List Char)) (ctr0 : Nat) :
    (buildNodeCells zones niz zoneCellIds ctr0).1.all goodCell = true := by
  unfold buildNodeCells
  apply foldl_cells_all
  · rfl
  intro st z
  apply foldl_cells_ext
  intro st2 inode
  refine ⟨_, rfl, ?_⟩
  rw [List.all_cons,
    goodCell_mk_geom _ _ (goodAttrs_addCell _ _ _ _ _ _ _ _) (goodAttrs_geom _ _ _ _ _)]
  rfl

theorem buildTbCells_good (tbs : List TBR)
    (zg : List (List Char × (Nat × Nat × Nat × Nat))) (ctr0 : Nat) :
    (buildTbCells tbs zg ctr0).1.all goodCell = true := by
  unfold buildTbCells
  apply foldl_cells_all
  · rfl
  intro st itb
  cases hbz : itb.2.between_zones with
  | nil =>
    refine ⟨[], ?_, rfl⟩
    simp only [hbz, List.append_nil]
  | cons z0 rest =>
    cases rest with
    | nil =>
      refine ⟨[], ?_, rfl⟩
      simp only [hbz, List.append_nil]
    | cons z1 rest2 =>
      cases h0 : dictLookup zg z0 with
      | none =>
        refine ⟨[], ?_, rfl⟩
        simp only [hbz, h0, List.append_nil]
      | some g0 =>
        cases h1 : dictLookup zg z1 with
        | none =>
          refine ⟨[], ?_, rfl⟩
          simp only [hbz, h0, h1, List.append_nil]
        | some g1 =>
          simp only [hbz, h0, h1]
          refine ⟨_, rfl, ?_⟩
          rw [List.all_cons, List.all_cons,
            goodCell_mk_geom _ _ (goodAttrs_addCell _ _ _ _ _ _ _ _)
              (goodAttrs_geom _ _ _ _ _),
            goodCell_mk_geom _ _ (goodAttrs_addCell _ _ _ _ _ _ _ _)
              (goodAttrs_geom _ _ _ _ _)]
          rfl

theorem buildEdgeCells_good (flows : List FlowR)
    (nodeCellIds : List (List Char × List Char)) (ctr0 : Nat) :
    (buildEdgeCells flows nodeCellIds ctr0).1.all goodCell = true := by
  unfold buildEdgeCells
  apply foldl_cells_all
  · rfl
  intro st f
  cases h0 : dictLookup nodeCellIds f.source with
  | none =>
    refine ⟨[], ?_, rfl⟩
    simp only [h0, List.append_nil]
  | some cs =>
    cases h1 : dictLookup nodeCellIds f.target with
    | none =>
      refine ⟨[], ?_, rfl⟩
      simp only [h0, h1, List.append_nil]
    | some ct =>
      simp only [h0, h1]
      refine ⟨_, rfl, ?_⟩
      rw [List.all_cons,
        goodCell_mk_geom _ _ (goodAttrs_addCell _ _ _ _ _ _ _ _)
          (goodAttrs_geom _ _ _ _ _)]
      rfl

theorem cells_good (g : Dsl) : (dsl_to_drawio_cells g).all goodCell = true := by
  unfold dsl_to_drawio_cells
  simp only [List.all_append]
  rw [buildZoneCells_good, buildNodeCells_good, buildTbCells_good, buildEdgeCells_good]
  simp only [List.all_cons, List.all_nil]
  rw [goodCell_mk_geom _ _ (goodAttrs_addCell _ _ _ _ _ _ _ _) (goodAttrs_geom _ _ _ _ _)]
  decide

theorem countOcc_out_xml (cells : List MxCell) (hall : cells.all goodCell = true) :
    countOcc ((r"<?xml").data) (XML_DECL ++ serializeDoc cells) = 1 := by
  have step : countOcc ('<' :: ['?', 'x', 'm', 'l'])
      (('<' :: ("?xml version=\"1.0\" encoding=\"UTF-8\"?>\n").data) ++ serializeDoc cells) =
      1 + countOcc ('<' :: ['?', 'x', 'm', 'l']) (serializeDoc cells) :=
    countOcc_block_hit _ (by decide) rfl (by decide) (by decide)
  have hdoc : (1 : Nat) + countOcc ('<' :: ['?', 'x', 'm', 'l']) (serializeDoc cells) = 1 := by
    rw [countOcc_doc_xml cells hall]
  exact step.trans hdoc

theorem countOcc_out_mxfile (cells : List MxCell) (hall : cells.all goodCell = true) :
    countOcc ((r"<mxfile").data) (XML_DECL ++ serializeDoc cells) = 1 := by
  have step : countOcc ('<' :: ['m', 'x', 'f', 'i', 'l', 'e'])
      (('<' :: ("?xml version=\"1.0\" encoding=\"UTF-8\"?>\n").data) ++ serializeDoc cells) =
      countOcc ('<' :: ['m', 'x', 'f', 'i', 'l', 'e']) (serializeDoc cells) :=
    countOcc_block_skip _ (by decide) rfl (by decide)
  exact step.trans (countOcc_doc_mxfile cells hall)

theorem serialize_xml_safe_eq (cells : List MxCell) (hall : cells.all goodCell = true) :
    serialize_xml_safe cells = XML_DECL ++ serializeDoc cells := by
  show (if 1 < countOcc ((r"<?xml").data) (XML_DECL ++ serializeDoc cells) then
      repairDecls (XML_DECL ++ serializeDoc cells)
    else XML_DECL ++ serializeDoc cells) = XML_DECL ++ serializeDoc cells
  rw [countOcc_out_xml cells hall]
  rw [if_neg (by omega)]

/-- C1: whenever `dsl_to_drawio` returns a string, that string contains at
most one XML declaration preamble, a present declaration starts at offset 0,
and exactly one `mxfile` root open tag occurs: the serializer emits no
declaration, `_serialize_xml_safe` prepends exactly one, attribute escaping
keeps `<` out of all attribute text, and the repair branch is never taken. -/
theorem claim_C1 (dsl : Dsl) (s : List Char) (h : dsl_to_drawio dsl = some s) :
    countOcc ((r"<?xml").data) s ≤ 1 ∧
    (0 < countOcc ((r"<?xml").data) s → isPre ((r"<?xml").data) s = true) ∧
    countOcc ((r"<mxfile").data) s = 1 := by
  unfold dsl_to_drawio at h
  cases h1 : validate_and_prepare_dsl dsl MIN_ZONES MIN_NODES MIN_FLOWS MIN_NODES_HARD true with
  | none =>
    rw [h1] at h
    exact absurd h (by simp)
  | some r =>
    rw [h1] at h
    have h' : (match r.result with
        | none => none
        | some g => some (serialize_xml_safe (dsl_to_drawio_cells g))) = some s := h
    cases h2 : r.result with
    | none =>
      rw [h2] at h'
      exact absurd h' (by simp)
    | some g =>
      rw [h2] at h'
      injection h' with h'
      have hall := cells_good g
      have hs := serialize_xml_safe_eq (dsl_to_drawio_cells g) hall
      rw [← h', hs]
      refine ⟨?_, fun _ => ?_, countOcc_out_mxfile (dsl_to_drawio_cells g) hall⟩
      · rw [countOcc_out_xml (dsl_to_drawio_cells g) hall]
      · rfl

def dC1w : Dsl :=
  { zones := [{ id := (r"internal").data, name := [], order := 0, color := [] }]
  , nodes := [{ id := (r"c").data, label := none, zone := (r"internal").data
              , type := (r"app").data, tags := [] }]
  , flows := [], trust_boundaries := [] }

def pC1w : PrepResult :=
  (validate_and_prepare_dsl dC1w MIN_ZONES MIN_NODES MIN_FLOWS MIN_NODES_HARD true).getD
    default

def gC1w : Dsl := pC1w.result.getD default

def sC1w : List Char := XML_DECL ++ serializeDoc (dsl_to_drawio_cells gC1w)

theorem claim_C1_witness :
    countOcc ((r"<?xml").data) sC1w ≤ 1 ∧
    (0 < countOcc ((r"<?xml").data) sC1w → isPre ((r"<?xml").data) sC1w = true) ∧
    countOcc ((r"<mxfile").data) sC1w = 1 :=
  claim_C1 dC1w sC1w (by
    unfold dsl_to_drawio
    rw [(by decide : validate_and_prepare_dsl dC1w MIN_ZONES MIN_NODES MIN_FLOWS
      MIN_NODES_HARD true = some pC1w)]
    show (match pC1w.result with
      | none => none
      | some g => some (serialize_xml_safe (dsl_to_drawio_cells g))) = some sC1w
    rw [(by decide : pC1w.result = some gC1w)]
    show some (serialize_xml_safe (dsl_to_drawio_cells gC1w)) = some sC1w
    exact congrArg some (serialize_xml_safe_eq (dsl_to_drawio_cells gC1w)
      (cells_good gC1w)))
